import Mathlib

/-!
Verification of the parser-combinator library in parser.combinator.h.

The embedding models:
- pos_stream::Pos (byte offset, row, column) and Pos::update exactly as
  in the source (the tab rule uses col + (8 - (col-1) % 8) on naturals,
  which agrees with the C++ int arithmetic for col >= 1, the only
  reachable values);
- the istream state seen by the parsers as a structure PStream holding
  the fixed character source, the streambuf read position idx, the
  pos_stream field c (last character read by uflow), the Pos, and the
  two relevant iostate bits: fail (failbit; badbit never arises here)
  and eofb (eofbit).  Standard istream semantics are modelled where the
  source relies on them: peek on a good stream at end of input sets
  eofbit and returns EOF; any unformatted operation (ignore, tellg,
  a later peek) entered with eofbit or failbit set trips the sentry,
  which sets failbit and does nothing; clear() resets both bits;
  s.tellg() returns -1 on a failed stream.  EOF read through
  "const char c = s.peek()" is modelled as the char with code 255
  (the usual (char)traits::eof() value), called eofChar below.
- a parser of result type T as a function PStream -> PResult T, where
  PResult distinguishes a normal return (which may carry the failbit:
  weak failure), a thrown ParserError, and divergence .div used as an
  out-of-fuel marker for the unbounded repetition loops (many, many1,
  sep_by, sep_by1), which take an explicit iteration budget.
- the C++ value-initialised default T() as an explicit argument d of
  the combinators that return it.

The MARK/CHECK/RETURN/RETURN_IF_FAIL macros appear inline: MARK
records pos.off at entry (the helper tellg(s, off0) is pos.off - off0,
so the "consumed since mark" test is pos.off != off0), and the
throw-if-failed-and-consumed logic is written out at each use site.
-/

/-- pos_stream::Pos: byte offset (streamoff off), cursor row and column. -/
structure Pos where
  off : Nat
  row : Nat
  col : Nat
deriving DecidableEq, Repr

/-- Pos::update(char c): off++, then tab rounds col up past the next
multiple of 8, newline resets col and bumps row, anything else bumps col. -/
def Pos.update (p : Pos) (ch : Char) : Pos :=
  if ch = '\t' then { p with off := p.off + 1, col := p.col + (8 - (p.col - 1) % 8) }
  else if ch = '\n' then { off := p.off + 1, row := p.row + 1, col := 1 }
  else { p with off := p.off + 1, col := p.col + 1 }

/-- The char value that "const char c = s.peek()" receives at end of
input: (char)traits::eof(), i.e. code 255. -/
def eofChar : Char := Char.ofNat 255

/-- The value-initialised char(), returned by a weakly failing character parser. -/
def charDflt : Char := Char.ofNat 0

/-- The istream-plus-pos_stream state a parser manipulates: the fixed
character source of the streambuf, the read position idx, the
pos_stream members c (last character read by uflow) and pos, and the
failbit / eofbit of the istream. -/
structure PStream where
  src : List Char
  idx : Nat
  c : Char
  pos : Pos
  fail : Bool
  eofb : Bool
deriving DecidableEq, Repr

/-- istream::clear(): reset the stream state to goodbit. -/
def sclear (s : PStream) : PStream := { s with fail := false, eofb := false }

/-- Outcome of applying a parser: a normal return (the stream may carry
failbit: weak failure), a thrown ParserError carrying the stream state
at the throw, or .div when the iteration budget of a repetition loop
ran out (the C++ loop would still be running). -/
inductive PResult (T : Type) where
  | ok : T → PStream → PResult T
  | err : PStream → PResult T
  | div : PResult T
deriving DecidableEq, Repr

/-- A parser of result type T: the denotation of parser<T>::operator()(istream &). -/
abbrev Parser (T : Type) : Type := PStream → PResult T

/-- A fresh stream over the given source, as built on top of a fresh
istream: position (0, 1, 1), no state bits set.  pos_stream::c is
uninitialised in C++; charDflt is used as its arbitrary initial value
(no theorem below depends on this choice). -/
def mkStream (cs : List Char) : PStream :=
  { src := cs, idx := 0, c := charDflt, pos := { off := 0, row := 1, col := 1 },
    fail := false, eofb := false }

/-- parser_match::operator(): throw if the stream is already failed;
peek the next character (at end of input this yields eofChar, sets
eofbit, and a stream already carrying eofbit enters with the sentry
setting failbit); if the predicate matches, consume it (ignore() at end
of input extracts nothing because its sentry fails, but update_pos is
still called with the stale pos_stream::c); otherwise set failbit and
return char(). -/
def parser_match (m : Char → Bool) : Parser Char := fun s =>
  if s.fail = true then .err s
  else if s.eofb = true then
    if m eofChar = true then
      .ok eofChar { s with fail := true, pos := s.pos.update s.c }
    else
      .ok charDflt { s with fail := true }
  else
    match s.src.get? s.idx with
    | some ch =>
      if m ch = true then
        .ok ch { s with idx := s.idx + 1, c := ch, pos := s.pos.update ch }
      else
        .ok charDflt { s with fail := true }
    | none =>
      if m eofChar = true then
        .ok eofChar { s with eofb := true, fail := true, pos := s.pos.update s.c }
      else
        .ok charDflt { s with eofb := true, fail := true }

/-- chr(c). -/
def parser_chr (c : Char) : Parser Char := parser_match (fun d => d == c)

/-- any_chr(). -/
def parser_any_char : Parser Char := parser_match (fun _ => true)

/-- strchr(s, c) != nullptr: c is in the string, or c is the NUL
terminator itself (which strchr also finds). -/
def strchr0 (cs : List Char) (c : Char) : Bool := cs.contains c || c == Char.ofNat 0

/-- one_of(s). -/
def parser_one_of (cs : List Char) : Parser Char := parser_match (strchr0 cs)

/-- none_of(s). -/
def parser_none_of (cs : List Char) : Parser Char := parser_match (fun c => !(strchr0 cs c))

/-- isdigit in the C locale (ASCII). -/
def isdigitC (c : Char) : Bool := decide ('0' ≤ c) && decide (c ≤ '9')

/-- isalpha in the C locale (ASCII). -/
def isalphaC (c : Char) : Bool :=
  (decide ('A' ≤ c) && decide (c ≤ 'Z')) || (decide ('a' ≤ c) && decide (c ≤ 'z'))

/-- isalnum in the C locale (ASCII). -/
def isalnumC (c : Char) : Bool := isalphaC c || isdigitC c

/-- digit(). -/
def parser_digit : Parser Char := parser_match isdigitC

/-- letter(). -/
def parser_letter : Parser Char := parser_match isalphaC

/-- alphanum(). -/
def parser_alphanum : Parser Char := parser_match isalnumC

/-- blank(): one_of(" \t"). -/
def parser_blank : Parser Char := parser_one_of [' ', '\t']

/-- parser_eof::operator(): throw if failed; succeed iff eofbit is
already set or peek returns EOF (setting eofbit), otherwise set failbit.
Nothing is ever consumed. -/
def parser_eof : Parser Unit := fun s =>
  if s.fail = true then .err s
  else if s.eofb = true then .ok () s
  else
    match s.src.get? s.idx with
    | none => .ok () { s with eofb := true }
    | some _ => .ok () { s with fail := true }

/-- parser_skip::operator(): run p and discard its result. -/
def parser_skip {T : Type} (p : Parser T) : Parser Unit := fun s =>
  match p s with
  | .ok _ s1 => .ok () s1
  | .err s1 => .err s1
  | .div => .div

/-- The loop of parser_str::operator(): for each literal character,
peek and compare; on a match consume and update the position, on a
mismatch (or end of input) set failbit and RETURN() — which throws
exactly when pos.off has moved since off0, the offset MARKed at the
entry of parser_str. -/
def strLoop (cs : List Char) (off0 : Nat) : Parser Unit := fun s =>
  match cs with
  | [] => .ok () s
  | c :: rest =>
    if s.fail = true ∨ s.eofb = true then
      -- peek's sentry trips: failbit is set, EOF returned, never equal to *t
      if s.pos.off ≠ off0 then .err { s with fail := true }
      else .ok () { s with fail := true }
    else
      match s.src.get? s.idx with
      | none =>
        -- peek at end: eofbit set, EOF returned; then setstate(failbit)
        if s.pos.off ≠ off0 then .err { s with eofb := true, fail := true }
        else .ok () { s with eofb := true, fail := true }
      | some d =>
        if d = c then
          strLoop rest off0 { s with idx := s.idx + 1, c := d, pos := s.pos.update d }
        else
          if s.pos.off ≠ off0 then .err { s with fail := true }
          else .ok () { s with fail := true }

/-- parser_str::operator() (skip("...")): throw if already failed, then
match the literal character by character. -/
def parser_str (cs : List Char) : Parser Unit := fun s =>
  if s.fail = true then .err s
  else strLoop cs s.pos.off s

/-- parser_map::operator() (p >> f for a plain function f): run p; on
failure return the default value d (C++ T()) with the failure
untouched, otherwise apply f. -/
def parser_map {U T : Type} (d : T) (p : Parser U) (f : U → T) : Parser T := fun s =>
  match p s with
  | .err s1 => .err s1
  | .div => .div
  | .ok u s1 => if s1.fail = true then .ok d s1 else .ok (f u) s1

/-- parser_cat::operator() (p + q on string parsers, here over List
Char): MARK; run p; if it succeeded, run q and append, with CHECK
throwing if the stream is failed and pos.off moved since entry. -/
def parser_cat (p q : Parser (List Char)) : Parser (List Char) := fun s =>
  match p s with
  | .err s1 => .err s1
  | .div => .div
  | .ok t s1 =>
    if s1.fail = true then .ok t s1
    else
      match q s1 with
      | .err s2 => .err s2
      | .div => .div
      | .ok u s2 =>
        if s2.fail = true ∧ s2.pos.off ≠ s.pos.off then .err s2
        else .ok (t ++ u) s2

/-- parser_seq::operator() (p > q, q not void): MARK; run p; if p
failed return T() without trying q; run q; RETURN(t) throws iff the
stream is failed and pos.off moved since the sequence's own entry. -/
def parser_seq {U T : Type} (d : T) (p : Parser U) (q : Parser T) : Parser T := fun s =>
  match p s with
  | .err s1 => .err s1
  | .div => .div
  | .ok _ s1 =>
    if s1.fail = true then .ok d s1
    else
      match q s1 with
      | .err s2 => .err s2
      | .div => .div
      | .ok t s2 =>
        if s2.fail = true ∧ s2.pos.off ≠ s.pos.off then .err s2
        else .ok t s2

/-- parser_seq<T, void>::operator() (p > q with void q): MARK; run p;
if p succeeded run q and CHECK; return p's result. -/
def parser_seq_tv {T : Type} (p : Parser T) (q : Parser Unit) : Parser T := fun s =>
  match p s with
  | .err s1 => .err s1
  | .div => .div
  | .ok t s1 =>
    if s1.fail = true then .ok t s1
    else
      match q s1 with
      | .err s2 => .err s2
      | .div => .div
      | .ok _ s2 =>
        if s2.fail = true ∧ s2.pos.off ≠ s.pos.off then .err s2
        else .ok t s2

/-- parser_seq<void, void>::operator(). -/
def parser_seq_vv (p q : Parser Unit) : Parser Unit := fun s =>
  match p s with
  | .err s1 => .err s1
  | .div => .div
  | .ok _ s1 =>
    if s1.fail = true then .ok () s1
    else
      match q s1 with
      | .err s2 => .err s2
      | .div => .div
      | .ok _ s2 =>
        if s2.fail = true ∧ s2.pos.off ≠ s.pos.off then .err s2
        else .ok () s2

/-- The loop of parser_many::operator(): run p, and on a failed return
clear the stream and yield the results accumulated so far (insertion
order); an exception from p propagates.  fuel bounds the number of
iterations; .div reports that the C++ loop would still be running. -/
def manyAcc {T : Type} (p : Parser T) : Nat → List T → Parser (List T) := fun fuel acc s =>
  match fuel with
  | 0 => .div
  | fuel' + 1 =>
    match p s with
    | .err s1 => .err s1
    | .div => .div
    | .ok t s1 =>
      if s1.fail = true then .ok acc (sclear s1)
      else manyAcc p fuel' (acc ++ [t]) s1

/-- many(p) for a collection result (the source's parser_many<C>,
with the container modelled as a list). -/
def parser_many {T : Type} (fuel : Nat) (p : Parser T) : Parser (List T) := fun s =>
  manyAcc p fuel [] s

/-- The loop of parser_many<void>::operator(): do p while not failed,
then clear. -/
def manyVoidLoop (p : Parser Unit) : Nat → Parser Unit := fun fuel s =>
  match fuel with
  | 0 => .div
  | fuel' + 1 =>
    match p s with
    | .err s1 => .err s1
    | .div => .div
    | .ok _ s1 =>
      if s1.fail = true then .ok () (sclear s1)
      else manyVoidLoop p fuel' s1

/-- many(p) for a void parser p. -/
def parser_many_void (fuel : Nat) (p : Parser Unit) : Parser Unit := fun s =>
  manyVoidLoop p fuel s

/-- The loop of parser_many1::operator() after the first success:
run p; a failed return clears the stream and yields the fold built so
far; otherwise fold with f and continue. -/
def many1Acc {T : Type} (p : Parser T) (f : T → T → T) : Nat → T → Parser T := fun fuel c s =>
  match fuel with
  | 0 => .div
  | fuel' + 1 =>
    match p s with
    | .err s1 => .err s1
    | .div => .div
    | .ok t s1 =>
      if s1.fail = true then .ok c (sclear s1)
      else many1Acc p f fuel' (f c t) s1

/-- many1(p, f): p must parse at least once; a failed first application
is returned as is (flag left set, stream untouched); later failures are
absorbed as in many. -/
def parser_many1 {T : Type} (fuel : Nat) (p : Parser T) (f : T → T → T) : Parser T := fun s =>
  match p s with
  | .err s1 => .err s1
  | .div => .div
  | .ok c s1 =>
    if s1.fail = true then .ok c s1
    else many1Acc p f fuel c s1

/-- many1(p) for a void parser p. -/
def parser_many1_void (fuel : Nat) (p : Parser Unit) : Parser Unit := fun s =>
  match p s with
  | .err s1 => .err s1
  | .div => .div
  | .ok _ s1 =>
    if s1.fail = true then .ok () s1
    else manyVoidLoop p fuel s1

/-- The loop of parser_sep_by::operator(): run the separator q; a
failed separator clears the stream and yields the collection; after a
successful separator p must succeed, where RETURN_IF_FAIL(C()) throws
iff pos.off moved since off0 (the offset at sep_by's own entry) and
otherwise returns the default C() with the failure flag still set. -/
def sepByLoop {T U : Type} (p : Parser T) (q : Parser U) (off0 : Nat) :
    Nat → List T → Parser (List T) := fun fuel acc s =>
  match fuel with
  | 0 => .div
  | fuel' + 1 =>
    match q s with
    | .err s1 => .err s1
    | .div => .div
    | .ok _ s1 =>
      if s1.fail = true then .ok acc (sclear s1)
      else
        match p s1 with
        | .err s2 => .err s2
        | .div => .div
        | .ok t s2 =>
          if s2.fail = true then
            if s2.pos.off ≠ off0 then .err s2 else .ok [] s2
          else sepByLoop p q off0 fuel' (acc ++ [t]) s2

/-- sep_by(p, q) for a collection result: /(p (q p)*)?/ — a failed
first element yields the empty collection with the failure cleared. -/
def parser_sep_by {T U : Type} (fuel : Nat) (p : Parser T) (q : Parser U) :
    Parser (List T) := fun s =>
  match p s with
  | .err s1 => .err s1
  | .div => .div
  | .ok t s1 =>
    if s1.fail = true then .ok [] (sclear s1)
    else sepByLoop p q s.pos.off fuel [t] s1

/-- The loop of parser_sep_by<void>::operator(). -/
def sepByVoidLoop {U : Type} (p : Parser Unit) (q : Parser U) (off0 : Nat) :
    Nat → Parser Unit := fun fuel s =>
  match fuel with
  | 0 => .div
  | fuel' + 1 =>
    match q s with
    | .err s1 => .err s1
    | .div => .div
    | .ok _ s1 =>
      if s1.fail = true then .ok () (sclear s1)
      else
        match p s1 with
        | .err s2 => .err s2
        | .div => .div
        | .ok _ s2 =>
          if s2.fail = true then
            if s2.pos.off ≠ off0 then .err s2 else .ok () s2
          else sepByVoidLoop p q off0 fuel' s2

/-- sep_by(p, q) for a void parser p. -/
def parser_sep_by_void {U : Type} (fuel : Nat) (p : Parser Unit) (q : Parser U) :
    Parser Unit := fun s =>
  match p s with
  | .err s1 => .err s1
  | .div => .div
  | .ok _ s1 =>
    if s1.fail = true then .ok () (sclear s1)
    else sepByVoidLoop p q s.pos.off fuel s1

/-- The loop of parser_sep_by1::operator() after the first success. -/
def sepBy1Loop {T U : Type} (d : T) (p : Parser T) (q : Parser U) (f : T → T → T)
    (off0 : Nat) : Nat → T → Parser T := fun fuel c s =>
  match fuel with
  | 0 => .div
  | fuel' + 1 =>
    match q s with
    | .err s1 => .err s1
    | .div => .div
    | .ok _ s1 =>
      if s1.fail = true then .ok c (sclear s1)
      else
        match p s1 with
        | .err s2 => .err s2
        | .div => .div
        | .ok t s2 =>
          if s2.fail = true then
            if s2.pos.off ≠ off0 then .err s2 else .ok d s2
          else sepBy1Loop d p q f off0 fuel' (f c t) s2

/-- sep_by1(p, q, f): /p (q p)*/ — a failed first application is
returned as is (flag left set); a failed element after a successful
separator is RETURN_IF_FAIL(T()). -/
def parser_sep_by1 {T U : Type} (d : T) (fuel : Nat) (p : Parser T) (q : Parser U)
    (f : T → T → T) : Parser T := fun s =>
  match p s with
  | .err s1 => .err s1
  | .div => .div
  | .ok c s1 =>
    if s1.fail = true then .ok c s1
    else sepBy1Loop d p q f s.pos.off fuel c s1

/-- parser_alt::operator() (p | q): run p; on success return its
result; on a failed return clear the stream and return q's outcome;
a thrown error from p propagates (q is never attempted). -/
def parser_alt {T : Type} (p q : Parser T) : Parser T := fun s =>
  match p s with
  | .err s1 => .err s1
  | .div => .div
  | .ok t s1 =>
    if s1.fail = true then q (sclear s1)
    else .ok t s1

/-- parser_alt<void>::operator(). -/
def parser_alt_void (p q : Parser Unit) : Parser Unit := fun s =>
  match p s with
  | .err s1 => .err s1
  | .div => .div
  | .ok _ s1 =>
    if s1.fail = true then q (sclear s1)
    else .ok () s1

/-- parser_try::operator() (try_(p)): save pos(s) and s.tellg() — the
istream tellg first runs a sentry (setting failbit if eofbit or failbit
is up) and returns -1 on a failed stream — then run p; a normal return
passes through; a thrown ParserError is caught and, when tellg was
valid, the stream is cleared, seeked back, marked failed again and the
saved Pos restored (seekg clears eofbit); when tellg was -1 nothing is
restored; either way the default value is returned. -/
def parser_try {T : Type} (d : T) (p : Parser T) : Parser T := fun s =>
  match p (if s.eofb = true ∧ s.fail = false then { s with fail := true } else s) with
  | .ok t s2 => .ok t s2
  | .div => .div
  | .err s2 =>
    if s.fail = true ∨ s.eofb = true then .ok d s2
    else .ok d { s2 with idx := s.idx, pos := s.pos, fail := true, eofb := false }

/-- foldl-view of the result of a many-style loop: used to state that
many1's loop is the many loop followed by a left fold with the
combiner (both loops clear the trailing failure identically). -/
def foldRes {T : Type} (f : T → T → T) (c : T) : PResult (List T) → PResult T
  | .ok ts s1 => .ok (ts.foldl f c) s1
  | .err s1 => .err s1
  | .div => .div

/-- Stream well-formedness: the eofbit is only ever set once the read
position has reached the end of the source.  Every stream reachable
from mkStream has this property, since eofbit is set exactly by peeks
at end of input and cleared by clear()/seekg. -/
def SOK (s : PStream) : Prop := s.eofb = true → s.src.length ≤ s.idx

/-- Relation between the entry stream and the stream of a normal return
from a library parser started on a non-failed stream: same source,
well-formed, the offset never moves backwards, an unchanged offset
means the whole position and read pointer are unchanged, and a
failed return is only ever issued at an unchanged offset. -/
def OutOk (s t : PStream) : Prop :=
  t.src = s.src ∧ SOK t ∧ s.pos.off ≤ t.pos.off ∧
  (t.pos.off = s.pos.off → t.pos = s.pos ∧ t.idx = s.idx) ∧
  (t.fail = true → t.pos.off = s.pos.off)

/-- Relation between the entry stream and the stream carried by a
thrown ParserError: same source, well-formed. -/
def ErrOk (s t : PStream) : Prop := t.src = s.src ∧ SOK t

/-- Relation between the entry stream and any outcome stream when the
entry stream is already at end of input: nothing can be consumed, so
position and read pointer are frozen. -/
def Frozen (s t : PStream) : Prop :=
  t.src = s.src ∧ SOK t ∧ t.pos = s.pos ∧ t.idx = s.idx

/-- The OutOk/ErrOk guarantee, per outcome shape. -/
def GoodRes (s : PStream) : {T : Type} → PResult T → Prop
  | _, .ok _ t => OutOk s t
  | _, .err t => ErrOk s t
  | _, .div => True

/-- The Frozen guarantee, per outcome shape. -/
def FrozenRes (s : PStream) : {T : Type} → PResult T → Prop
  | _, .ok _ t => Frozen s t
  | _, .err t => Frozen s t
  | _, .div => True

/-- The behavioural discipline every parser built from the library's
leaves (with predicates rejecting eofChar) and combinators satisfies:
from a non-failed well-formed stream the outcome satisfies
GoodRes (in particular a failed normal return leaves offset, row,
column and read pointer exactly at their entry values), and from a
stream already at end of input (failed or not) nothing moves. -/
def Good {T : Type} (p : Parser T) : Prop :=
  ∀ s : PStream, SOK s →
    (s.fail = false → GoodRes s (p s)) ∧
    (s.src.length ≤ s.idx → FrozenRes s (p s))

/-- Parsers built from the library's leaves and combinators.  The
strict flag: with strict = true, character-matching leaves are
required to reject eofChar (the value a peek at end of input produces),
which excludes any_chr and none-of-style predicates; with
strict = false every predicate leaf is allowed, which is the library
as it stands.  The repetition combinators carry their iteration
budget.  Not covered: the chain combinator p >> f for a stream-reading
function f (the function is user code, not a library combinator), and
the void specialization of sep_by1, whose loop in the source does not
parse (the spec flags it as an open question). -/
inductive Built : Bool → {T : Type} → Parser T → Prop where
  | matchLeaf (b : Bool) (m : Char → Bool) (hm : b = true → m eofChar = false) :
      Built b (parser_match m)
  | strLeaf (b : Bool) (cs : List Char) : Built b (parser_str cs)
  | eofLeaf (b : Bool) : Built b parser_eof
  | skip (b : Bool) {T : Type} {p : Parser T} :
      Built b p → Built b (parser_skip p)
  | map (b : Bool) {U T : Type} (d : T) (f : U → T) {p : Parser U} :
      Built b p → Built b (parser_map d p f)
  | cat (b : Bool) {p q : Parser (List Char)} :
      Built b p → Built b q → Built b (parser_cat p q)
  | seq (b : Bool) {U T : Type} (d : T) {p : Parser U} {q : Parser T} :
      Built b p → Built b q → Built b (parser_seq d p q)
  | seq_tv (b : Bool) {T : Type} {p : Parser T} {q : Parser Unit} :
      Built b p → Built b q → Built b (parser_seq_tv p q)
  | seq_vv (b : Bool) {p q : Parser Unit} :
      Built b p → Built b q → Built b (parser_seq_vv p q)
  | many (b : Bool) {T : Type} (fuel : Nat) {p : Parser T} :
      Built b p → Built b (parser_many fuel p)
  | many_void (b : Bool) (fuel : Nat) {p : Parser Unit} :
      Built b p → Built b (parser_many_void fuel p)
  | many1 (b : Bool) {T : Type} (fuel : Nat) (f : T → T → T) {p : Parser T} :
      Built b p → Built b (parser_many1 fuel p f)
  | many1_void (b : Bool) (fuel : Nat) {p : Parser Unit} :
      Built b p → Built b (parser_many1_void fuel p)
  | sep_by (b : Bool) {T U : Type} (fuel : Nat) {p : Parser T} {q : Parser U} :
      Built b p → Built b q → Built b (parser_sep_by fuel p q)
  | sep_by_void (b : Bool) {U : Type} (fuel : Nat) {p : Parser Unit} {q : Parser U} :
      Built b p → Built b q → Built b (parser_sep_by_void fuel p q)
  | sep_by1 (b : Bool) {T U : Type} (d : T) (fuel : Nat) (f : T → T → T)
      {p : Parser T} {q : Parser U} :
      Built b p → Built b q → Built b (parser_sep_by1 d fuel p q f)
  | alt (b : Bool) {T : Type} {p q : Parser T} :
      Built b p → Built b q → Built b (parser_alt p q)
  | alt_void (b : Bool) {p q : Parser Unit} :
      Built b p → Built b q → Built b (parser_alt_void p q)
  | tryP (b : Bool) {T : Type} (d : T) {p : Parser T} :
      Built b p → Built b (parser_try d p)

/-- A custom parser<T> instance (any type with the parser interface is
a legitimate parser) used to reach the zero-consumption branch of
sep_by's RETURN_IF_FAIL: it succeeds consuming nothing the first time
(flipping only the eofbit, as a peek-at-end does) and reports a weak
failure when applied again with the eofbit up.  It obeys the leaf
discipline: it never consumes before failing. -/
def eofbProbe : Parser (List Char) := fun s =>
  if s.eofb = false then .ok ['x'] { s with eofb := true }
  else .ok [] { s with fail := true }

/-- A separator parser that always succeeds consuming nothing. -/
def sepNoop : Parser Unit := fun s => .ok () s

/-- Outcome relation for the bodies of the MARKed loops (parser_str,
sep_by, sep_by1) relative to the offset off0 recorded at the enclosing
combinator's entry: like OutOk, except that a failed normal return is
pinned to off0 (the RETURN / RETURN_IF_FAIL guard). -/
def LoopOut (off0 : Nat) (s t : PStream) : Prop :=
  t.src = s.src ∧ SOK t ∧ s.pos.off ≤ t.pos.off ∧
  (t.pos.off = s.pos.off → t.pos = s.pos ∧ t.idx = s.idx) ∧
  (t.fail = true → t.pos.off = off0)

theorem pos_update_off (p : Pos) (ch : Char) : (Pos.update p ch).off = p.off + 1 := by
  unfold Pos.update
  split
  · rfl
  · split <;> rfl

theorem outOk_refl (s : PStream) (hs : SOK s) : OutOk s s :=
  ⟨rfl, hs, le_refl _, fun _ => ⟨rfl, rfl⟩, fun _ => rfl⟩

theorem frozen_refl (s : PStream) (hs : SOK s) : Frozen s s := ⟨rfl, hs, rfl, rfl⟩

theorem frozen_trans {s t u : PStream} (h1 : Frozen s t) (h2 : Frozen t u) : Frozen s u :=
  ⟨h2.1.trans h1.1, h2.2.1, h2.2.2.1.trans h1.2.2.1, h2.2.2.2.trans h1.2.2.2⟩

theorem frozen_outOk {s t : PStream} (h : Frozen s t) : OutOk s t :=
  ⟨h.1, h.2.1, le_of_eq (congrArg Pos.off h.2.2.1.symm),
   fun _ => ⟨h.2.2.1, h.2.2.2⟩, fun _ => congrArg Pos.off h.2.2.1⟩

theorem outOk_trans {s t u : PStream} (h1 : OutOk s t) (h2 : OutOk t u)
    (hf : u.fail = true → t.pos.off = s.pos.off) : OutOk s u := by
  obtain ⟨e1, k1, m1, q1, f1⟩ := h1
  obtain ⟨e2, k2, m2, q2, f2⟩ := h2
  refine ⟨e2.trans e1, k2, m1.trans m2, ?_, ?_⟩
  · intro h
    have ht : t.pos.off = s.pos.off := le_antisymm (h ▸ m2) m1
    have hu : u.pos.off = t.pos.off := by omega
    obtain ⟨a1, b1⟩ := q1 ht
    obtain ⟨a2, b2⟩ := q2 hu
    exact ⟨a2.trans a1, b2.trans b1⟩
  · intro h
    have := f2 h
    have := hf h
    omega

theorem outOk_setfail (s : PStream) (hs : SOK s) : OutOk s { s with fail := true } :=
  ⟨rfl, hs, le_refl _, fun _ => ⟨rfl, rfl⟩, fun _ => rfl⟩

theorem outOk_seteof_fail (s : PStream) (h : s.src.length ≤ s.idx) :
    OutOk s { s with eofb := true, fail := true } :=
  ⟨rfl, fun _ => h, le_refl _, fun _ => ⟨rfl, rfl⟩, fun _ => rfl⟩

theorem outOk_consume (s : PStream) (hs : SOK s) (hf : s.fail = false) (ch ch' : Char) :
    OutOk s { s with idx := s.idx + 1, c := ch', pos := s.pos.update ch } := by
  refine ⟨rfl, ?_, ?_, ?_, ?_⟩
  · intro h; exact (hs h).trans (Nat.le_succ _)
  · simp [pos_update_off]
  · intro h; simp [pos_update_off] at h
  · intro h; simp [hf] at h

theorem frozen_sclear (s t : PStream) (h : Frozen s t) : Frozen s (sclear t) :=
  ⟨h.1, fun hh => by simp [sclear] at hh, h.2.2.1, h.2.2.2⟩

theorem good_match (m : Char → Bool) (hm : m eofChar = false) : Good (parser_match m) := by
  intro s hs
  constructor
  · intro hfail
    unfold parser_match
    split
    · next h => simp [hfail] at h
    · split
      · split
        · next h => simp [hm] at h
        · exact outOk_setfail s hs
      · split
        · split
          · next ch hg h => exact outOk_consume s hs hfail ch ch
          · exact outOk_setfail s hs
        · next hg =>
          split
          · next h => simp [hm] at h
          · exact outOk_seteof_fail s (List.get?_eq_none.mp hg)
  · intro hend
    unfold parser_match
    split
    · exact frozen_refl s hs
    · split
      · split
        · next h => simp [hm] at h
        · exact ⟨rfl, hs, rfl, rfl⟩
      · split
        · next ch hg =>
          rw [List.get?_eq_none.mpr hend] at hg
          cases hg
        · next hg =>
          split
          · next h => simp [hm] at h
          · exact ⟨rfl, fun _ => hend, rfl, rfl⟩

theorem good_eof : Good parser_eof := by
  intro s hs
  constructor
  · intro hfail
    unfold parser_eof
    split
    · next h => simp [hfail] at h
    · split
      · exact outOk_refl s hs
      · split
        · next hg =>
          exact ⟨rfl, fun _ => List.get?_eq_none.mp hg, le_refl _, fun _ => ⟨rfl, rfl⟩,
            fun h => by simp at h; simp [h] at hfail⟩
        · exact outOk_setfail s hs
  · intro hend
    unfold parser_eof
    split
    · exact frozen_refl s hs
    · split
      · exact frozen_refl s hs
      · split
        · exact ⟨rfl, fun _ => hend, rfl, rfl⟩
        · next ch hg =>
          rw [List.get?_eq_none.mpr hend] at hg
          cases hg

theorem strLoop_ok (cs : List Char) (off0 : Nat) :
    ∀ s : PStream, SOK s → s.fail = false →
      (∀ u t, strLoop cs off0 s = .ok u t →
        t.src = s.src ∧ SOK t ∧ s.pos.off ≤ t.pos.off ∧
        (t.pos.off = s.pos.off → t.pos = s.pos ∧ t.idx = s.idx) ∧
        (t.fail = true → t.pos.off = off0)) ∧
      (∀ t, strLoop cs off0 s = .err t → ErrOk s t) := by
  induction cs with
  | nil =>
    intro s hs hfail
    constructor
    · intro u t h
      unfold strLoop at h
      cases h
      exact ⟨rfl, hs, le_refl _, fun _ => ⟨rfl, rfl⟩, fun hf => by rw [hfail] at hf; cases hf⟩
    · intro t h
      unfold strLoop at h
      cases h
  | cons c rest ih =>
    intro s hs hfail
    constructor
    · intro u t h
      unfold strLoop at h
      split at h
      · split at h
        · cases h
        · next hne =>
          simp only [ne_eq, not_not] at hne
          cases h
          exact ⟨rfl, hs, le_refl _, fun _ => ⟨rfl, rfl⟩, fun _ => hne⟩
      · next hcond =>
        split at h
        · next hg =>
          split at h
          · cases h
          · next hne =>
            simp only [ne_eq, not_not] at hne
            cases h
            exact ⟨rfl, fun _ => List.get?_eq_none.mp hg, le_refl _,
              fun _ => ⟨rfl, rfl⟩, fun _ => hne⟩
        · next d hg =>
          split at h
          · next hd =>
            have he : s.eofb = false := by
              cases hb : s.eofb
              · rfl
              · exact absurd (Or.inr hb) hcond
            have hrec := ih { s with idx := s.idx + 1, c := d, pos := s.pos.update d }
              (by intro hh; simp [he] at hh) hfail
            obtain ⟨e1, k1, m1, _q1, f1⟩ := hrec.1 u t h
            refine ⟨e1, k1, ?_, ?_, f1⟩
            · simp only [pos_update_off] at m1
              omega
            · intro hq
              simp only [pos_update_off] at m1
              omega
          · split at h
            · cases h
            · next hne =>
              simp only [ne_eq, not_not] at hne
              cases h
              exact ⟨rfl, hs, le_refl _, fun _ => ⟨rfl, rfl⟩, fun _ => hne⟩
    · intro t h
      unfold strLoop at h
      split at h
      · split at h
        · cases h
          exact ⟨rfl, hs⟩
        · cases h
      · next hcond =>
        split at h
        · next hg =>
          split at h
          · cases h
            exact ⟨rfl, fun _ => List.get?_eq_none.mp hg⟩
          · cases h
        · next d hg =>
          split at h
          · next hd =>
            have he : s.eofb = false := by
              cases hb : s.eofb
              · rfl
              · exact absurd (Or.inr hb) hcond
            have hrec := ih { s with idx := s.idx + 1, c := d, pos := s.pos.update d }
              (by intro hh; simp [he] at hh) hfail
            exact hrec.2 t h
          · split at h
            · cases h
              exact ⟨rfl, hs⟩
            · cases h

theorem strLoop_frozen (cs : List Char) (s : PStream) (hs : SOK s)
    (hend : s.src.length ≤ s.idx) (_hfail : s.fail = false) :
    FrozenRes s (strLoop cs s.pos.off s) := by
  cases cs with
  | nil =>
    unfold strLoop
    exact frozen_refl s hs
  | cons c rest =>
    unfold strLoop
    split
    · split
      · next hne => exact absurd rfl hne
      · exact ⟨rfl, hs, rfl, rfl⟩
    · split
      · next hg =>
        split
        · next hne => exact absurd rfl hne
        · exact ⟨rfl, fun _ => hend, rfl, rfl⟩
      · next d hg =>
        rw [List.get?_eq_none.mpr hend] at hg
        cases hg

theorem good_str (cs : List Char) : Good (parser_str cs) := by
  intro s hs
  constructor
  · intro hfail
    unfold parser_str
    split
    · next h => simp [hfail] at h
    · have hl := strLoop_ok cs s.pos.off s hs hfail
      cases h : strLoop cs s.pos.off s with
      | ok u t =>
        obtain ⟨e1, k1, m1, q1, f1⟩ := hl.1 u t h
        exact ⟨e1, k1, m1, q1, f1⟩
      | err t => exact hl.2 t h
      | div => trivial
  · intro hend
    unfold parser_str
    split
    · exact frozen_refl s hs
    · next hne =>
      have hfail : s.fail = false := by
        cases hb : s.fail
        · rfl
        · exact absurd hb hne
      exact strLoop_frozen cs s hs hend hfail

theorem good_skip {T : Type} {p : Parser T} (hp : Good p) : Good (parser_skip p) := by
  intro s hs
  constructor
  · intro hfail
    have h1 := (hp s hs).1 hfail
    unfold parser_skip
    cases h : p s with
    | ok v s1 => rw [h] at h1; exact h1
    | err s1 => rw [h] at h1; exact h1
    | div => trivial
  · intro hend
    have h1 := (hp s hs).2 hend
    unfold parser_skip
    cases h : p s with
    | ok v s1 => rw [h] at h1; exact h1
    | err s1 => rw [h] at h1; exact h1
    | div => trivial

theorem good_map {U T : Type} (d : T) (f : U → T) {p : Parser U} (hp : Good p) :
    Good (parser_map d p f) := by
  intro s hs
  constructor
  · intro hfail
    have h1 := (hp s hs).1 hfail
    unfold parser_map
    split
    · next s1 h => rw [h] at h1; exact h1
    · next h => trivial
    · next u s1 h =>
      rw [h] at h1
      split
      · exact h1
      · exact h1
  · intro hend
    have h1 := (hp s hs).2 hend
    unfold parser_map
    split
    · next s1 h => rw [h] at h1; exact h1
    · next h => trivial
    · next u s1 h =>
      rw [h] at h1
      split
      · exact h1
      · exact h1

theorem good_seq {U T : Type} (d : T) {p : Parser U} {q : Parser T}
    (hp : Good p) (hq : Good q) : Good (parser_seq d p q) := by
  intro s hs
  constructor
  · intro hfail
    have h1 := (hp s hs).1 hfail
    unfold parser_seq
    split
    · next s1 h => rw [h] at h1; exact h1
    · trivial
    · next u s1 h =>
      rw [h] at h1
      have ho1 : OutOk s s1 := h1
      split
      · exact ho1
      · next hf1 =>
        have hf1' : s1.fail = false := by
          cases hb : s1.fail
          · rfl
          · exact absurd hb hf1
        have h2 := (hq s1 ho1.2.1).1 hf1'
        split
        · next s2 hq2 => rw [hq2] at h2; exact ⟨h2.1.trans ho1.1, h2.2⟩
        · trivial
        · next t s2 hq2 =>
          rw [hq2] at h2
          have ho2 : OutOk s1 s2 := h2
          split
          · next hg => exact ⟨ho2.1.trans ho1.1, ho2.2.1⟩
          · next hg =>
            refine outOk_trans ho1 ho2 ?_
            intro hf2
            have h3 := ho2.2.2.2.2 hf2
            by_cases hoff : s2.pos.off = s.pos.off
            · omega
            · exact absurd ⟨hf2, hoff⟩ hg
  · intro hend
    unfold parser_seq
    split
    · next s1 h => have h1 := (hp s hs).2 hend; rw [h] at h1; exact h1
    · trivial
    · next u s1 h =>
      have h1 := (hp s hs).2 hend
      rw [h] at h1
      have hz1 : Frozen s s1 := h1
      split
      · exact hz1
      · next hf1 =>
        have hend1 : s1.src.length ≤ s1.idx := by rw [hz1.1, hz1.2.2.2]; exact hend
        have h2 := (hq s1 hz1.2.1).2 hend1
        split
        · next s2 hq2 => rw [hq2] at h2; exact frozen_trans hz1 h2
        · trivial
        · next t s2 hq2 =>
          rw [hq2] at h2
          have hz2 : Frozen s1 s2 := h2
          split
          · exact frozen_trans hz1 hz2
          · exact frozen_trans hz1 hz2

theorem good_seq_tv {T : Type} {p : Parser T} {q : Parser Unit}
    (hp : Good p) (hq : Good q) : Good (parser_seq_tv p q) := by
  intro s hs
  constructor
  · intro hfail
    have h1 := (hp s hs).1 hfail
    unfold parser_seq_tv
    split
    · next s1 h => rw [h] at h1; exact h1
    · trivial
    · next u s1 h =>
      rw [h] at h1
      have ho1 : OutOk s s1 := h1
      split
      · exact ho1
      · next hf1 =>
        have hf1' : s1.fail = false := by
          cases hb : s1.fail
          · rfl
          · exact absurd hb hf1
        have h2 := (hq s1 ho1.2.1).1 hf1'
        split
        · next s2 hq2 => rw [hq2] at h2; exact ⟨h2.1.trans ho1.1, h2.2⟩
        · trivial
        · next t s2 hq2 =>
          rw [hq2] at h2
          have ho2 : OutOk s1 s2 := h2
          split
          · next hg => exact ⟨ho2.1.trans ho1.1, ho2.2.1⟩
          · next hg =>
            refine outOk_trans ho1 ho2 ?_
            intro hf2
            have h3 := ho2.2.2.2.2 hf2
            by_cases hoff : s2.pos.off = s.pos.off
            · omega
            · exact absurd ⟨hf2, hoff⟩ hg
  · intro hend
    unfold parser_seq_tv
    split
    · next s1 h => have h1 := (hp s hs).2 hend; rw [h] at h1; exact h1
    · trivial
    · next u s1 h =>
      have h1 := (hp s hs).2 hend
      rw [h] at h1
      have hz1 : Frozen s s1 := h1
      split
      · exact hz1
      · next hf1 =>
        have hend1 : s1.src.length ≤ s1.idx := by rw [hz1.1, hz1.2.2.2]; exact hend
        have h2 := (hq s1 hz1.2.1).2 hend1
        split
        · next s2 hq2 => rw [hq2] at h2; exact frozen_trans hz1 h2
        · trivial
        · next t s2 hq2 =>
          rw [hq2] at h2
          have hz2 : Frozen s1 s2 := h2
          split
          · exact frozen_trans hz1 hz2
          · exact frozen_trans hz1 hz2

theorem good_seq_vv {p q : Parser Unit}
    (hp : Good p) (hq : Good q) : Good (parser_seq_vv p q) := by
  intro s hs
  constructor
  · intro hfail
    have h1 := (hp s hs).1 hfail
    unfold parser_seq_vv
    split
    · next s1 h => rw [h] at h1; exact h1
    · trivial
    · next u s1 h =>
      rw [h] at h1
      have ho1 : OutOk s s1 := h1
      split
      · exact ho1
      · next hf1 =>
        have hf1' : s1.fail = false := by
          cases hb : s1.fail
          · rfl
          · exact absurd hb hf1
        have h2 := (hq s1 ho1.2.1).1 hf1'
        split
        · next s2 hq2 => rw [hq2] at h2; exact ⟨h2.1.trans ho1.1, h2.2⟩
        · trivial
        · next t s2 hq2 =>
          rw [hq2] at h2
          have ho2 : OutOk s1 s2 := h2
          split
          · next hg => exact ⟨ho2.1.trans ho1.1, ho2.2.1⟩
          · next hg =>
            refine outOk_trans ho1 ho2 ?_
            intro hf2
            have h3 := ho2.2.2.2.2 hf2
            by_cases hoff : s2.pos.off = s.pos.off
            · omega
            · exact absurd ⟨hf2, hoff⟩ hg
  · intro hend
    unfold parser_seq_vv
    split
    · next s1 h => have h1 := (hp s hs).2 hend; rw [h] at h1; exact h1
    · trivial
    · next u s1 h =>
      have h1 := (hp s hs).2 hend
      rw [h] at h1
      have hz1 : Frozen s s1 := h1
      split
      · exact hz1
      · next hf1 =>
        have hend1 : s1.src.length ≤ s1.idx := by rw [hz1.1, hz1.2.2.2]; exact hend
        have h2 := (hq s1 hz1.2.1).2 hend1
        split
        · next s2 hq2 => rw [hq2] at h2; exact frozen_trans hz1 h2
        · trivial
        · next t s2 hq2 =>
          rw [hq2] at h2
          have hz2 : Frozen s1 s2 := h2
          split
          · exact frozen_trans hz1 hz2
          · exact frozen_trans hz1 hz2

theorem good_cat {p q : Parser (List Char)}
    (hp : Good p) (hq : Good q) : Good (parser_cat p q) := by
  intro s hs
  constructor
  · intro hfail
    have h1 := (hp s hs).1 hfail
    unfold parser_cat
    split
    · next s1 h => rw [h] at h1; exact h1
    · trivial
    · next u s1 h =>
      rw [h] at h1
      have ho1 : OutOk s s1 := h1
      split
      · exact ho1
      · next hf1 =>
        have hf1' : s1.fail = false := by
          cases hb : s1.fail
          · rfl
          · exact absurd hb hf1
        have h2 := (hq s1 ho1.2.1).1 hf1'
        split
        · next s2 hq2 => rw [hq2] at h2; exact ⟨h2.1.trans ho1.1, h2.2⟩
        · trivial
        · next t s2 hq2 =>
          rw [hq2] at h2
          have ho2 : OutOk s1 s2 := h2
          split
          · next hg => exact ⟨ho2.1.trans ho1.1, ho2.2.1⟩
          · next hg =>
            refine outOk_trans ho1 ho2 ?_
            intro hf2
            have h3 := ho2.2.2.2.2 hf2
            by_cases hoff : s2.pos.off = s.pos.off
            · omega
            · exact absurd ⟨hf2, hoff⟩ hg
  · intro hend
    unfold parser_cat
    split
    · next s1 h => have h1 := (hp s hs).2 hend; rw [h] at h1; exact h1
    · trivial
    · next u s1 h =>
      have h1 := (hp s hs).2 hend
      rw [h] at h1
      have hz1 : Frozen s s1 := h1
      split
      · exact hz1
      · next hf1 =>
        have hend1 : s1.src.length ≤ s1.idx := by rw [hz1.1, hz1.2.2.2]; exact hend
        have h2 := (hq s1 hz1.2.1).2 hend1
        split
        · next s2 hq2 => rw [hq2] at h2; exact frozen_trans hz1 h2
        · trivial
        · next t s2 hq2 =>
          rw [hq2] at h2
          have hz2 : Frozen s1 s2 := h2
          split
          · exact frozen_trans hz1 hz2
          · exact frozen_trans hz1 hz2

theorem outOk_sclear_of_flagged {s s1 : PStream} (ho1 : OutOk s s1) (hf1 : s1.fail = true) :
    OutOk s (sclear s1) ∧ (sclear s1).fail = false := by
  have hoff := ho1.2.2.2.2 hf1
  have hpi := ho1.2.2.2.1 hoff
  refine ⟨⟨ho1.1, ?_, ?_, ?_, ?_⟩, rfl⟩
  · intro h; simp [sclear] at h
  · show s.pos.off ≤ s1.pos.off
    omega
  · intro _; exact ⟨hpi.1, hpi.2⟩
  · intro h; simp [sclear] at h

theorem manyAcc_good {T : Type} {p : Parser T} (hp : Good p) :
    ∀ (fuel : Nat) (acc : List T) (s : PStream), SOK s → s.fail = false →
      (∀ v t, manyAcc p fuel acc s = .ok v t → OutOk s t ∧ t.fail = false) ∧
      (∀ t, manyAcc p fuel acc s = .err t → ErrOk s t) := by
  intro fuel
  induction fuel with
  | zero =>
    intro acc s hs hfail
    constructor
    · intro v t h; simp [manyAcc] at h
    · intro t h; simp [manyAcc] at h
  | succ n ih =>
    intro acc s hs hfail
    have h1 := (hp s hs).1 hfail
    constructor
    · intro v t h
      unfold manyAcc at h
      split at h
      · cases h
      · cases h
      · next t1 s1 heq =>
        rw [heq] at h1
        have ho1 : OutOk s s1 := h1
        split at h
        · next hf1 =>
          cases h
          exact outOk_sclear_of_flagged ho1 hf1
        · next hf1 =>
          have hf1' : s1.fail = false := by
            cases hb : s1.fail
            · rfl
            · exact absurd hb hf1
          obtain ⟨ho2, hfo⟩ := (ih (acc ++ [t1]) s1 ho1.2.1 hf1').1 v t h
          refine ⟨outOk_trans ho1 ho2 ?_, hfo⟩
          intro hft
          rw [hft] at hfo
          cases hfo
    · intro t h
      unfold manyAcc at h
      split at h
      · next s1 heq =>
        rw [heq] at h1
        cases h
        exact h1
      · cases h
      · next t1 s1 heq =>
        rw [heq] at h1
        have ho1 : OutOk s s1 := h1
        split at h
        · cases h
        · next hf1 =>
          have hf1' : s1.fail = false := by
            cases hb : s1.fail
            · rfl
            · exact absurd hb hf1
          have he2 := (ih (acc ++ [t1]) s1 ho1.2.1 hf1').2 t h
          exact ⟨he2.1.trans ho1.1, he2.2⟩

theorem manyAcc_frozen {T : Type} {p : Parser T} (hp : Good p) :
    ∀ (fuel : Nat) (acc : List T) (s : PStream), SOK s → s.src.length ≤ s.idx →
      (∀ v t, manyAcc p fuel acc s = .ok v t → Frozen s t) ∧
      (∀ t, manyAcc p fuel acc s = .err t → Frozen s t) := by
  intro fuel
  induction fuel with
  | zero =>
    intro acc s hs hend
    constructor
    · intro v t h; simp [manyAcc] at h
    · intro t h; simp [manyAcc] at h
  | succ n ih =>
    intro acc s hs hend
    have h1 := (hp s hs).2 hend
    constructor
    · intro v t h
      unfold manyAcc at h
      split at h
      · cases h
      · cases h
      · next t1 s1 heq =>
        rw [heq] at h1
        have hz1 : Frozen s s1 := h1
        split at h
        · cases h
          exact frozen_sclear s s1 hz1
        · have hend1 : s1.src.length ≤ s1.idx := by rw [hz1.1, hz1.2.2.2]; exact hend
          have hz2 := (ih (acc ++ [t1]) s1 hz1.2.1 hend1).1 v t h
          exact frozen_trans hz1 hz2
    · intro t h
      unfold manyAcc at h
      split at h
      · next s1 heq =>
        rw [heq] at h1
        cases h
        exact h1
      · cases h
      · next t1 s1 heq =>
        rw [heq] at h1
        have hz1 : Frozen s s1 := h1
        split at h
        · cases h
        · have hend1 : s1.src.length ≤ s1.idx := by rw [hz1.1, hz1.2.2.2]; exact hend
          have hz2 := (ih (acc ++ [t1]) s1 hz1.2.1 hend1).2 t h
          exact frozen_trans hz1 hz2

theorem good_many {T : Type} (fuel : Nat) {p : Parser T} (hp : Good p) :
    Good (parser_many fuel p) := by
  intro s hs
  constructor
  · intro hfail
    unfold parser_many
    cases h : manyAcc p fuel [] s with
    | ok v t => exact ((manyAcc_good hp fuel [] s hs hfail).1 v t h).1
    | err t => exact (manyAcc_good hp fuel [] s hs hfail).2 t h
    | div => trivial
  · intro hend
    unfold parser_many
    cases h : manyAcc p fuel [] s with
    | ok v t => exact (manyAcc_frozen hp fuel [] s hs hend).1 v t h
    | err t => exact (manyAcc_frozen hp fuel [] s hs hend).2 t h
    | div => trivial

theorem manyVoidLoop_good {p : Parser Unit} (hp : Good p) :
    ∀ (fuel : Nat) (s : PStream), SOK s → s.fail = false →
      (∀ v t, manyVoidLoop p fuel s = .ok v t → OutOk s t ∧ t.fail = false) ∧
      (∀ t, manyVoidLoop p fuel s = .err t → ErrOk s t) := by
  intro fuel
  induction fuel with
  | zero =>
    intro s hs hfail
    constructor
    · intro v t h; simp [manyVoidLoop] at h
    · intro t h; simp [manyVoidLoop] at h
  | succ n ih =>
    intro s hs hfail
    have h1 := (hp s hs).1 hfail
    constructor
    · intro v t h
      unfold manyVoidLoop at h
      split at h
      · cases h
      · cases h
      · next t1 s1 heq =>
        rw [heq] at h1
        have ho1 : OutOk s s1 := h1
        split at h
        · next hf1 =>
          cases h
          exact outOk_sclear_of_flagged ho1 hf1
        · next hf1 =>
          have hf1' : s1.fail = false := by
            cases hb : s1.fail
            · rfl
            · exact absurd hb hf1
          obtain ⟨ho2, hfo⟩ := (ih s1 ho1.2.1 hf1').1 v t h
          refine ⟨outOk_trans ho1 ho2 ?_, hfo⟩
          intro hft
          rw [hft] at hfo
          cases hfo
    · intro t h
      unfold manyVoidLoop at h
      split at h
      · next s1 heq =>
        rw [heq] at h1
        cases h
        exact h1
      · cases h
      · next t1 s1 heq =>
        rw [heq] at h1
        have ho1 : OutOk s s1 := h1
        split at h
        · cases h
        · next hf1 =>
          have hf1' : s1.fail = false := by
            cases hb : s1.fail
            · rfl
            · exact absurd hb hf1
          have he2 := (ih s1 ho1.2.1 hf1').2 t h
          exact ⟨he2.1.trans ho1.1, he2.2⟩

theorem manyVoidLoop_frozen {p : Parser Unit} (hp : Good p) :
    ∀ (fuel : Nat) (s : PStream), SOK s → s.src.length ≤ s.idx →
      (∀ v t, manyVoidLoop p fuel s = .ok v t → Frozen s t) ∧
      (∀ t, manyVoidLoop p fuel s = .err t → Frozen s t) := by
  intro fuel
  induction fuel with
  | zero =>
    intro s hs hend
    constructor
    · intro v t h; simp [manyVoidLoop] at h
    · intro t h; simp [manyVoidLoop] at h
  | succ n ih =>
    intro s hs hend
    have h1 := (hp s hs).2 hend
    constructor
    · intro v t h
      unfold manyVoidLoop at h
      split at h
      · cases h
      · cases h
      · next t1 s1 heq =>
        rw [heq] at h1
        have hz1 : Frozen s s1 := h1
        split at h
        · cases h
          exact frozen_sclear s s1 hz1
        · have hend1 : s1.src.length ≤ s1.idx := by rw [hz1.1, hz1.2.2.2]; exact hend
          have hz2 := (ih s1 hz1.2.1 hend1).1 v t h
          exact frozen_trans hz1 hz2
    · intro t h
      unfold manyVoidLoop at h
      split at h
      · next s1 heq =>
        rw [heq] at h1
        cases h
        exact h1
      · cases h
      · next t1 s1 heq =>
        rw [heq] at h1
        have hz1 : Frozen s s1 := h1
        split at h
        · cases h
        · have hend1 : s1.src.length ≤ s1.idx := by rw [hz1.1, hz1.2.2.2]; exact hend
          have hz2 := (ih s1 hz1.2.1 hend1).2 t h
          exact frozen_trans hz1 hz2

theorem good_many_void (fuel : Nat) {p : Parser Unit} (hp : Good p) :
    Good (parser_many_void fuel p) := by
  intro s hs
  constructor
  · intro hfail
    unfold parser_many_void
    cases h : manyVoidLoop p fuel s with
    | ok v t => exact ((manyVoidLoop_good hp fuel s hs hfail).1 v t h).1
    | err t => exact (manyVoidLoop_good hp fuel s hs hfail).2 t h
    | div => trivial
  · intro hend
    unfold parser_many_void
    cases h : manyVoidLoop p fuel s with
    | ok v t => exact (manyVoidLoop_frozen hp fuel s hs hend).1 v t h
    | err t => exact (manyVoidLoop_frozen hp fuel s hs hend).2 t h
    | div => trivial

theorem many1Acc_good {T : Type} {p : Parser T} (f : T → T → T) (hp : Good p) :
    ∀ (fuel : Nat) (c : T) (s : PStream), SOK s → s.fail = false →
      (∀ v t, many1Acc p f fuel c s = .ok v t → OutOk s t ∧ t.fail = false) ∧
      (∀ t, many1Acc p f fuel c s = .err t → ErrOk s t) := by
  intro fuel
  induction fuel with
  | zero =>
    intro c s hs hfail
    constructor
    · intro v t h; simp [many1Acc] at h
    · intro t h; simp [many1Acc] at h
  | succ n ih =>
    intro c s hs hfail
    have h1 := (hp s hs).1 hfail
    constructor
    · intro v t h
      unfold many1Acc at h
      split at h
      · cases h
      · cases h
      · next t1 s1 heq =>
        rw [heq] at h1
        have ho1 : OutOk s s1 := h1
        split at h
        · next hf1 =>
          cases h
          exact outOk_sclear_of_flagged ho1 hf1
        · next hf1 =>
          have hf1' : s1.fail = false := by
            cases hb : s1.fail
            · rfl
            · exact absurd hb hf1
          obtain ⟨ho2, hfo⟩ := (ih (f c t1) s1 ho1.2.1 hf1').1 v t h
          refine ⟨outOk_trans ho1 ho2 ?_, hfo⟩
          intro hft
          rw [hft] at hfo
          cases hfo
    · intro t h
      unfold many1Acc at h
      split at h
      · next s1 heq =>
        rw [heq] at h1
        cases h
        exact h1
      · cases h
      · next t1 s1 heq =>
        rw [heq] at h1
        have ho1 : OutOk s s1 := h1
        split at h
        · cases h
        · next hf1 =>
          have hf1' : s1.fail = false := by
            cases hb : s1.fail
            · rfl
            · exact absurd hb hf1
          have he2 := (ih (f c t1) s1 ho1.2.1 hf1').2 t h
          exact ⟨he2.1.trans ho1.1, he2.2⟩

theorem many1Acc_frozen {T : Type} {p : Parser T} (f : T → T → T) (hp : Good p) :
    ∀ (fuel : Nat) (c : T) (s : PStream), SOK s → s.src.length ≤ s.idx →
      (∀ v t, many1Acc p f fuel c s = .ok v t → Frozen s t) ∧
      (∀ t, many1Acc p f fuel c s = .err t → Frozen s t) := by
  intro fuel
  induction fuel with
  | zero =>
    intro c s hs hend
    constructor
    · intro v t h; simp [many1Acc] at h
    · intro t h; simp [many1Acc] at h
  | succ n ih =>
    intro c s hs hend
    have h1 := (hp s hs).2 hend
    constructor
    · intro v t h
      unfold many1Acc at h
      split at h
      · cases h
      · cases h
      · next t1 s1 heq =>
        rw [heq] at h1
        have hz1 : Frozen s s1 := h1
        split at h
        · cases h
          exact frozen_sclear s s1 hz1
        · have hend1 : s1.src.length ≤ s1.idx := by rw [hz1.1, hz1.2.2.2]; exact hend
          have hz2 := (ih (f c t1) s1 hz1.2.1 hend1).1 v t h
          exact frozen_trans hz1 hz2
    · intro t h
      unfold many1Acc at h
      split at h
      · next s1 heq =>
        rw [heq] at h1
        cases h
        exact h1
      · cases h
      · next t1 s1 heq =>
        rw [heq] at h1
        have hz1 : Frozen s s1 := h1
        split at h
        · cases h
        · have hend1 : s1.src.length ≤ s1.idx := by rw [hz1.1, hz1.2.2.2]; exact hend
          have hz2 := (ih (f c t1) s1 hz1.2.1 hend1).2 t h
          exact frozen_trans hz1 hz2

theorem good_many1 {T : Type} (fuel : Nat) (f : T → T → T) {p : Parser T} (hp : Good p) :
    Good (parser_many1 fuel p f) := by
  intro s hs
  constructor
  · intro hfail
    have h1 := (hp s hs).1 hfail
    unfold parser_many1
    split
    · next s1 heq => rw [heq] at h1; exact h1
    · trivial
    · next c s1 heq =>
      rw [heq] at h1
      have ho1 : OutOk s s1 := h1
      split
      · exact ho1
      · next hf1 =>
        have hf1' : s1.fail = false := by
          cases hb : s1.fail
          · rfl
          · exact absurd hb hf1
        cases h : many1Acc p f fuel c s1 with
        | ok v t =>
          obtain ⟨ho2, _⟩ := (many1Acc_good f hp fuel c s1 ho1.2.1 hf1').1 v t h
          refine outOk_trans ho1 ho2 ?_
          intro hft
          obtain ⟨_, hfo⟩ := (many1Acc_good f hp fuel c s1 ho1.2.1 hf1').1 v t h
          rw [hft] at hfo
          cases hfo
        | err t =>
          have he2 := (many1Acc_good f hp fuel c s1 ho1.2.1 hf1').2 t h
          exact ⟨he2.1.trans ho1.1, he2.2⟩
        | div => trivial
  · intro hend
    have h1 := (hp s hs).2 hend
    unfold parser_many1
    split
    · next s1 heq => rw [heq] at h1; exact h1
    · trivial
    · next c s1 heq =>
      rw [heq] at h1
      have hz1 : Frozen s s1 := h1
      split
      · exact hz1
      · have hend1 : s1.src.length ≤ s1.idx := by rw [hz1.1, hz1.2.2.2]; exact hend
        cases h : many1Acc p f fuel c s1 with
        | ok v t =>
          exact frozen_trans hz1 ((many1Acc_frozen f hp fuel c s1 hz1.2.1 hend1).1 v t h)
        | err t =>
          exact frozen_trans hz1 ((many1Acc_frozen f hp fuel c s1 hz1.2.1 hend1).2 t h)
        | div => trivial

theorem good_many1_void (fuel : Nat) {p : Parser Unit} (hp : Good p) :
    Good (parser_many1_void fuel p) := by
  intro s hs
  constructor
  · intro hfail
    have h1 := (hp s hs).1 hfail
    unfold parser_many1_void
    split
    · next s1 heq => rw [heq] at h1; exact h1
    · trivial
    · next c s1 heq =>
      rw [heq] at h1
      have ho1 : OutOk s s1 := h1
      split
      · exact ho1
      · next hf1 =>
        have hf1' : s1.fail = false := by
          cases hb : s1.fail
          · rfl
          · exact absurd hb hf1
        cases h : manyVoidLoop p fuel s1 with
        | ok v t =>
          obtain ⟨ho2, hfo⟩ := (manyVoidLoop_good hp fuel s1 ho1.2.1 hf1').1 v t h
          refine outOk_trans ho1 ho2 ?_
          intro hft
          rw [hft] at hfo
          cases hfo
        | err t =>
          have he2 := (manyVoidLoop_good hp fuel s1 ho1.2.1 hf1').2 t h
          exact ⟨he2.1.trans ho1.1, he2.2⟩
        | div => trivial
  · intro hend
    have h1 := (hp s hs).2 hend
    unfold parser_many1_void
    split
    · next s1 heq => rw [heq] at h1; exact h1
    · trivial
    · next c s1 heq =>
      rw [heq] at h1
      have hz1 : Frozen s s1 := h1
      split
      · exact hz1
      · have hend1 : s1.src.length ≤ s1.idx := by rw [hz1.1, hz1.2.2.2]; exact hend
        cases h : manyVoidLoop p fuel s1 with
        | ok v t =>
          exact frozen_trans hz1 ((manyVoidLoop_frozen hp fuel s1 hz1.2.1 hend1).1 v t h)
        | err t =>
          exact frozen_trans hz1 ((manyVoidLoop_frozen hp fuel s1 hz1.2.1 hend1).2 t h)
        | div => trivial

theorem loopOut_of_outOk {off0 : Nat} {s t : PStream} (h : OutOk s t)
    (hf : t.fail = false) : LoopOut off0 s t := by
  refine ⟨h.1, h.2.1, h.2.2.1, h.2.2.2.1, ?_⟩
  intro hft
  rw [hft] at hf
  cases hf

theorem loopOut_comp {off0 : Nat} {s s1 t : PStream} (h1 : OutOk s s1)
    (h2 : LoopOut off0 s1 t) : LoopOut off0 s t := by
  obtain ⟨e1, k1, m1, q1, _f1⟩ := h1
  obtain ⟨e2, k2, m2, q2, f2⟩ := h2
  refine ⟨e2.trans e1, k2, m1.trans m2, ?_, f2⟩
  intro h
  have ht : s1.pos.off = s.pos.off := by omega
  have hu : t.pos.off = s1.pos.off := by omega
  obtain ⟨a1, b1⟩ := q1 ht
  obtain ⟨a2, b2⟩ := q2 hu
  exact ⟨a2.trans a1, b2.trans b1⟩

theorem loopOut_flag_pin {off0 : Nat} {s s1 t : PStream} (h1 : OutOk s s1)
    (h2 : OutOk s1 t) (hpin : t.pos.off = off0) : LoopOut off0 s t := by
  obtain ⟨e1, k1, m1, q1, _⟩ := h1
  obtain ⟨e2, k2, m2, q2, _⟩ := h2
  refine ⟨e2.trans e1, k2, m1.trans m2, ?_, fun _ => hpin⟩
  intro h
  have ht : s1.pos.off = s.pos.off := by omega
  have hu : t.pos.off = s1.pos.off := by omega
  obtain ⟨a1, b1⟩ := q1 ht
  obtain ⟨a2, b2⟩ := q2 hu
  exact ⟨a2.trans a1, b2.trans b1⟩

theorem sepByLoop_good {T U : Type} {p : Parser T} {q : Parser U}
    (hp : Good p) (hq : Good q) (off0 : Nat) :
    ∀ (fuel : Nat) (acc : List T) (s : PStream), SOK s → s.fail = false →
      (∀ v t, sepByLoop p q off0 fuel acc s = .ok v t → LoopOut off0 s t) ∧
      (∀ t, sepByLoop p q off0 fuel acc s = .err t → ErrOk s t) := by
  intro fuel
  induction fuel with
  | zero =>
    intro acc s hs hfail
    constructor
    · intro v t h; simp [sepByLoop] at h
    · intro t h; simp [sepByLoop] at h
  | succ n ih =>
    intro acc s hs hfail
    have h1 := (hq s hs).1 hfail
    constructor
    · intro v t h
      unfold sepByLoop at h
      split at h
      · cases h
      · cases h
      · next u1 s1 heq =>
        rw [heq] at h1
        have hoq : OutOk s s1 := h1
        split at h
        · next hf1 =>
          cases h
          exact loopOut_of_outOk (outOk_sclear_of_flagged hoq hf1).1 rfl
        · next hf1 =>
          have hf1' : s1.fail = false := by
            cases hb : s1.fail
            · rfl
            · exact absurd hb hf1
          have h2 := (hp s1 hoq.2.1).1 hf1'
          split at h
          · cases h
          · cases h
          · next t1 s2 heq2 =>
            rw [heq2] at h2
            have hop : OutOk s1 s2 := h2
            split at h
            · next hf2 =>
              split at h
              · cases h
              · next hne =>
                simp only [ne_eq, not_not] at hne
                cases h
                exact loopOut_flag_pin hoq hop hne
            · next hf2 =>
              have hf2' : s2.fail = false := by
                cases hb : s2.fail
                · rfl
                · exact absurd hb hf2
              have hrec := (ih (acc ++ [t1]) s2 hop.2.1 hf2').1 v t h
              exact loopOut_comp hoq (loopOut_comp hop hrec)
    · intro t h
      unfold sepByLoop at h
      split at h
      · next s1 heq =>
        rw [heq] at h1
        cases h
        exact h1
      · cases h
      · next u1 s1 heq =>
        rw [heq] at h1
        have hoq : OutOk s s1 := h1
        split at h
        · cases h
        · next hf1 =>
          have hf1' : s1.fail = false := by
            cases hb : s1.fail
            · rfl
            · exact absurd hb hf1
          have h2 := (hp s1 hoq.2.1).1 hf1'
          split at h
          · next s2 heq2 =>
            rw [heq2] at h2
            cases h
            exact ⟨h2.1.trans hoq.1, h2.2⟩
          · cases h
          · next t1 s2 heq2 =>
            rw [heq2] at h2
            have hop : OutOk s1 s2 := h2
            split at h
            · split at h
              · cases h
                exact ⟨hop.1.trans hoq.1, hop.2.1⟩
              · cases h
            · next hf2 =>
              have hf2' : s2.fail = false := by
                cases hb : s2.fail
                · rfl
                · exact absurd hb hf2
              have hrec := (ih (acc ++ [t1]) s2 hop.2.1 hf2').2 t h
              exact ⟨hrec.1.trans (hop.1.trans hoq.1), hrec.2⟩

theorem sepByLoop_frozen {T U : Type} {p : Parser T} {q : Parser U}
    (hp : Good p) (hq : Good q) (off0 : Nat) :
    ∀ (fuel : Nat) (acc : List T) (s : PStream), SOK s → s.src.length ≤ s.idx →
      s.pos.off = off0 →
      (∀ v t, sepByLoop p q off0 fuel acc s = .ok v t → Frozen s t) ∧
      (∀ t, sepByLoop p q off0 fuel acc s = .err t → Frozen s t) := by
  intro fuel
  induction fuel with
  | zero =>
    intro acc s hs hend hoff
    constructor
    · intro v t h; simp [sepByLoop] at h
    · intro t h; simp [sepByLoop] at h
  | succ n ih =>
    intro acc s hs hend hoff
    have h1 := (hq s hs).2 hend
    constructor
    · intro v t h
      unfold sepByLoop at h
      split at h
      · cases h
      · cases h
      · next u1 s1 heq =>
        rw [heq] at h1
        have hzq : Frozen s s1 := h1
        have hend1 : s1.src.length ≤ s1.idx := by rw [hzq.1, hzq.2.2.2]; exact hend
        split at h
        · cases h
          exact frozen_sclear s s1 hzq
        · have h2 := (hp s1 hzq.2.1).2 hend1
          split at h
          · cases h
          · cases h
          · next t1 s2 heq2 =>
            rw [heq2] at h2
            have hzp : Frozen s1 s2 := h2
            split at h
            · split at h
              · next hne =>
                have : s2.pos.off = off0 := by
                  rw [hzp.2.2.1, hzq.2.2.1, hoff]
                exact absurd this hne
              · cases h
                exact frozen_trans hzq hzp
            · have hend2 : s2.src.length ≤ s2.idx := by rw [hzp.1, hzp.2.2.2]; exact hend1
              have hoff2 : s2.pos.off = off0 := by rw [hzp.2.2.1, hzq.2.2.1, hoff]
              have hrec := (ih (acc ++ [t1]) s2 hzp.2.1 hend2 hoff2).1 v t h
              exact frozen_trans hzq (frozen_trans hzp hrec)
    · intro t h
      unfold sepByLoop at h
      split at h
      · next s1 heq =>
        rw [heq] at h1
        cases h
        exact h1
      · cases h
      · next u1 s1 heq =>
        rw [heq] at h1
        have hzq : Frozen s s1 := h1
        have hend1 : s1.src.length ≤ s1.idx := by rw [hzq.1, hzq.2.2.2]; exact hend
        split at h
        · cases h
        · have h2 := (hp s1 hzq.2.1).2 hend1
          split at h
          · next s2 heq2 =>
            rw [heq2] at h2
            cases h
            exact frozen_trans hzq h2
          · cases h
          · next t1 s2 heq2 =>
            rw [heq2] at h2
            have hzp : Frozen s1 s2 := h2
            split at h
            · split at h
              · cases h
                exact frozen_trans hzq hzp
              · cases h
            · have hend2 : s2.src.length ≤ s2.idx := by rw [hzp.1, hzp.2.2.2]; exact hend1
              have hoff2 : s2.pos.off = off0 := by rw [hzp.2.2.1, hzq.2.2.1, hoff]
              have hrec := (ih (acc ++ [t1]) s2 hzp.2.1 hend2 hoff2).2 t h
              exact frozen_trans hzq (frozen_trans hzp hrec)

theorem good_sep_by {T U : Type} (fuel : Nat) {p : Parser T} {q : Parser U}
    (hp : Good p) (hq : Good q) : Good (parser_sep_by fuel p q) := by
  intro s hs
  constructor
  · intro hfail
    have h1 := (hp s hs).1 hfail
    unfold parser_sep_by
    split
    · next s1 heq => rw [heq] at h1; exact h1
    · trivial
    · next t1 s1 heq =>
      rw [heq] at h1
      have ho1 : OutOk s s1 := h1
      split
      · next hf1 => exact (outOk_sclear_of_flagged ho1 hf1).1
      · next hf1 =>
        have hf1' : s1.fail = false := by
          cases hb : s1.fail
          · rfl
          · exact absurd hb hf1
        cases h : sepByLoop p q s.pos.off fuel [t1] s1 with
        | ok v t =>
          have hl := (sepByLoop_good hp hq s.pos.off fuel [t1] s1 ho1.2.1 hf1').1 v t h
          have := loopOut_comp ho1 hl
          exact ⟨this.1, this.2.1, this.2.2.1, this.2.2.2.1, this.2.2.2.2⟩
        | err t =>
          have hl := (sepByLoop_good hp hq s.pos.off fuel [t1] s1 ho1.2.1 hf1').2 t h
          exact ⟨hl.1.trans ho1.1, hl.2⟩
        | div => trivial
  · intro hend
    have h1 := (hp s hs).2 hend
    unfold parser_sep_by
    split
    · next s1 heq => rw [heq] at h1; exact h1
    · trivial
    · next t1 s1 heq =>
      rw [heq] at h1
      have hz1 : Frozen s s1 := h1
      split
      · exact frozen_sclear s s1 hz1
      · have hend1 : s1.src.length ≤ s1.idx := by rw [hz1.1, hz1.2.2.2]; exact hend
        have hoff1 : s1.pos.off = s.pos.off := by rw [hz1.2.2.1]
        cases h : sepByLoop p q s.pos.off fuel [t1] s1 with
        | ok v t =>
          exact frozen_trans hz1
            ((sepByLoop_frozen hp hq s.pos.off fuel [t1] s1 hz1.2.1 hend1 hoff1).1 v t h)
        | err t =>
          exact frozen_trans hz1
            ((sepByLoop_frozen hp hq s.pos.off fuel [t1] s1 hz1.2.1 hend1 hoff1).2 t h)
        | div => trivial

theorem sepByVoidLoop_good {U : Type} {p : Parser Unit} {q : Parser U}
    (hp : Good p) (hq : Good q) (off0 : Nat) :
    ∀ (fuel : Nat) (s : PStream), SOK s → s.fail = false →
      (∀ v t, sepByVoidLoop p q off0 fuel s = .ok v t → LoopOut off0 s t) ∧
      (∀ t, sepByVoidLoop p q off0 fuel s = .err t → ErrOk s t) := by
  intro fuel
  induction fuel with
  | zero =>
    intro s hs hfail
    constructor
    · intro v t h; simp [sepByVoidLoop] at h
    · intro t h; simp [sepByVoidLoop] at h
  | succ n ih =>
    intro s hs hfail
    have h1 := (hq s hs).1 hfail
    constructor
    · intro v t h
      unfold sepByVoidLoop at h
      split at h
      · cases h
      · cases h
      · next u1 s1 heq =>
        rw [heq] at h1
        have hoq : OutOk s s1 := h1
        split at h
        · next hf1 =>
          cases h
          exact loopOut_of_outOk (outOk_sclear_of_flagged hoq hf1).1 rfl
        · next hf1 =>
          have hf1' : s1.fail = false := by
            cases hb : s1.fail
            · rfl
            · exact absurd hb hf1
          have h2 := (hp s1 hoq.2.1).1 hf1'
          split at h
          · cases h
          · cases h
          · next t1 s2 heq2 =>
            rw [heq2] at h2
            have hop : OutOk s1 s2 := h2
            split at h
            · next hf2 =>
              split at h
              · cases h
              · next hne =>
                simp only [ne_eq, not_not] at hne
                cases h
                exact loopOut_flag_pin hoq hop hne
            · next hf2 =>
              have hf2' : s2.fail = false := by
                cases hb : s2.fail
                · rfl
                · exact absurd hb hf2
              have hrec := (ih s2 hop.2.1 hf2').1 v t h
              exact loopOut_comp hoq (loopOut_comp hop hrec)
    · intro t h
      unfold sepByVoidLoop at h
      split at h
      · next s1 heq =>
        rw [heq] at h1
        cases h
        exact h1
      · cases h
      · next u1 s1 heq =>
        rw [heq] at h1
        have hoq : OutOk s s1 := h1
        split at h
        · cases h
        · next hf1 =>
          have hf1' : s1.fail = false := by
            cases hb : s1.fail
            · rfl
            · exact absurd hb hf1
          have h2 := (hp s1 hoq.2.1).1 hf1'
          split at h
          · next s2 heq2 =>
            rw [heq2] at h2
            cases h
            exact ⟨h2.1.trans hoq.1, h2.2⟩
          · cases h
          · next t1 s2 heq2 =>
            rw [heq2] at h2
            have hop : OutOk s1 s2 := h2
            split at h
            · split at h
              · cases h
                exact ⟨hop.1.trans hoq.1, hop.2.1⟩
              · cases h
            · next hf2 =>
              have hf2' : s2.fail = false := by
                cases hb : s2.fail
                · rfl
                · exact absurd hb hf2
              have hrec := (ih s2 hop.2.1 hf2').2 t h
              exact ⟨hrec.1.trans (hop.1.trans hoq.1), hrec.2⟩

theorem sepByVoidLoop_frozen {U : Type} {p : Parser Unit} {q : Parser U}
    (hp : Good p) (hq : Good q) (off0 : Nat) :
    ∀ (fuel : Nat) (s : PStream), SOK s → s.src.length ≤ s.idx → s.pos.off = off0 →
      (∀ v t, sepByVoidLoop p q off0 fuel s = .ok v t → Frozen s t) ∧
      (∀ t, sepByVoidLoop p q off0 fuel s = .err t → Frozen s t) := by
  intro fuel
  induction fuel with
  | zero =>
    intro s hs hend hoff
    constructor
    · intro v t h; simp [sepByVoidLoop] at h
    · intro t h; simp [sepByVoidLoop] at h
  | succ n ih =>
    intro s hs hend hoff
    have h1 := (hq s hs).2 hend
    constructor
    · intro v t h
      unfold sepByVoidLoop at h
      split at h
      · cases h
      · cases h
      · next u1 s1 heq =>
        rw [heq] at h1
        have hzq : Frozen s s1 := h1
        have hend1 : s1.src.length ≤ s1.idx := by rw [hzq.1, hzq.2.2.2]; exact hend
        split at h
        · cases h
          exact frozen_sclear s s1 hzq
        · have h2 := (hp s1 hzq.2.1).2 hend1
          split at h
          · cases h
          · cases h
          · next t1 s2 heq2 =>
            rw [heq2] at h2
            have hzp : Frozen s1 s2 := h2
            split at h
            · split at h
              · next hne =>
                have : s2.pos.off = off0 := by
                  rw [hzp.2.2.1, hzq.2.2.1, hoff]
                exact absurd this hne
              · cases h
                exact frozen_trans hzq hzp
            · have hend2 : s2.src.length ≤ s2.idx := by rw [hzp.1, hzp.2.2.2]; exact hend1
              have hoff2 : s2.pos.off = off0 := by rw [hzp.2.2.1, hzq.2.2.1, hoff]
              have hrec := (ih s2 hzp.2.1 hend2 hoff2).1 v t h
              exact frozen_trans hzq (frozen_trans hzp hrec)
    · intro t h
      unfold sepByVoidLoop at h
      split at h
      · next s1 heq =>
        rw [heq] at h1
        cases h
        exact h1
      · cases h
      · next u1 s1 heq =>
        rw [heq] at h1
        have hzq : Frozen s s1 := h1
        have hend1 : s1.src.length ≤ s1.idx := by rw [hzq.1, hzq.2.2.2]; exact hend
        split at h
        · cases h
        · have h2 := (hp s1 hzq.2.1).2 hend1
          split at h
          · next s2 heq2 =>
            rw [heq2] at h2
            cases h
            exact frozen_trans hzq h2
          · cases h
          · next t1 s2 heq2 =>
            rw [heq2] at h2
            have hzp : Frozen s1 s2 := h2
            split at h
            · split at h
              · cases h
                exact frozen_trans hzq hzp
              · cases h
            · have hend2 : s2.src.length ≤ s2.idx := by rw [hzp.1, hzp.2.2.2]; exact hend1
              have hoff2 : s2.pos.off = off0 := by rw [hzp.2.2.1, hzq.2.2.1, hoff]
              have hrec := (ih s2 hzp.2.1 hend2 hoff2).2 t h
              exact frozen_trans hzq (frozen_trans hzp hrec)

theorem good_sep_by_void {U : Type} (fuel : Nat) {p : Parser Unit} {q : Parser U}
    (hp : Good p) (hq : Good q) : Good (parser_sep_by_void fuel p q) := by
  intro s hs
  constructor
  · intro hfail
    have h1 := (hp s hs).1 hfail
    unfold parser_sep_by_void
    split
    · next s1 heq => rw [heq] at h1; exact h1
    · trivial
    · next t1 s1 heq =>
      rw [heq] at h1
      have ho1 : OutOk s s1 := h1
      split
      · next hf1 => exact (outOk_sclear_of_flagged ho1 hf1).1
      · next hf1 =>
        have hf1' : s1.fail = false := by
          cases hb : s1.fail
          · rfl
          · exact absurd hb hf1
        cases h : sepByVoidLoop p q s.pos.off fuel s1 with
        | ok v t =>
          have hl := (sepByVoidLoop_good hp hq s.pos.off fuel s1 ho1.2.1 hf1').1 v t h
          have := loopOut_comp ho1 hl
          exact ⟨this.1, this.2.1, this.2.2.1, this.2.2.2.1, this.2.2.2.2⟩
        | err t =>
          have hl := (sepByVoidLoop_good hp hq s.pos.off fuel s1 ho1.2.1 hf1').2 t h
          exact ⟨hl.1.trans ho1.1, hl.2⟩
        | div => trivial
  · intro hend
    have h1 := (hp s hs).2 hend
    unfold parser_sep_by_void
    split
    · next s1 heq => rw [heq] at h1; exact h1
    · trivial
    · next t1 s1 heq =>
      rw [heq] at h1
      have hz1 : Frozen s s1 := h1
      split
      · exact frozen_sclear s s1 hz1
      · have hend1 : s1.src.length ≤ s1.idx := by rw [hz1.1, hz1.2.2.2]; exact hend
        have hoff1 : s1.pos.off = s.pos.off := by rw [hz1.2.2.1]
        cases h : sepByVoidLoop p q s.pos.off fuel s1 with
        | ok v t =>
          exact frozen_trans hz1
            ((sepByVoidLoop_frozen hp hq s.pos.off fuel s1 hz1.2.1 hend1 hoff1).1 v t h)
        | err t =>
          exact frozen_trans hz1
            ((sepByVoidLoop_frozen hp hq s.pos.off fuel s1 hz1.2.1 hend1 hoff1).2 t h)
        | div => trivial

theorem sepBy1Loop_good {T U : Type} (d : T) (f : T → T → T) {p : Parser T} {q : Parser U}
    (hp : Good p) (hq : Good q) (off0 : Nat) :
    ∀ (fuel : Nat) (c : T) (s : PStream), SOK s → s.fail = false →
      (∀ v t, sepBy1Loop d p q f off0 fuel c s = .ok v t → LoopOut off0 s t) ∧
      (∀ t, sepBy1Loop d p q f off0 fuel c s = .err t → ErrOk s t) := by
  intro fuel
  induction fuel with
  | zero =>
    intro c s hs hfail
    constructor
    · intro v t h; simp [sepBy1Loop] at h
    · intro t h; simp [sepBy1Loop] at h
  | succ n ih =>
    intro c s hs hfail
    have h1 := (hq s hs).1 hfail
    constructor
    · intro v t h
      unfold sepBy1Loop at h
      split at h
      · cases h
      · cases h
      · next u1 s1 heq =>
        rw [heq] at h1
        have hoq : OutOk s s1 := h1
        split at h
        · next hf1 =>
          cases h
          exact loopOut_of_outOk (outOk_sclear_of_flagged hoq hf1).1 rfl
        · next hf1 =>
          have hf1' : s1.fail = false := by
            cases hb : s1.fail
            · rfl
            · exact absurd hb hf1
          have h2 := (hp s1 hoq.2.1).1 hf1'
          split at h
          · cases h
          · cases h
          · next t1 s2 heq2 =>
            rw [heq2] at h2
            have hop : OutOk s1 s2 := h2
            split at h
            · next hf2 =>
              split at h
              · cases h
              · next hne =>
                simp only [ne_eq, not_not] at hne
                cases h
                exact loopOut_flag_pin hoq hop hne
            · next hf2 =>
              have hf2' : s2.fail = false := by
                cases hb : s2.fail
                · rfl
                · exact absurd hb hf2
              have hrec := (ih (f c t1) s2 hop.2.1 hf2').1 v t h
              exact loopOut_comp hoq (loopOut_comp hop hrec)
    · intro t h
      unfold sepBy1Loop at h
      split at h
      · next s1 heq =>
        rw [heq] at h1
        cases h
        exact h1
      · cases h
      · next u1 s1 heq =>
        rw [heq] at h1
        have hoq : OutOk s s1 := h1
        split at h
        · cases h
        · next hf1 =>
          have hf1' : s1.fail = false := by
            cases hb : s1.fail
            · rfl
            · exact absurd hb hf1
          have h2 := (hp s1 hoq.2.1).1 hf1'
          split at h
          · next s2 heq2 =>
            rw [heq2] at h2
            cases h
            exact ⟨h2.1.trans hoq.1, h2.2⟩
          · cases h
          · next t1 s2 heq2 =>
            rw [heq2] at h2
            have hop : OutOk s1 s2 := h2
            split at h
            · split at h
              · cases h
                exact ⟨hop.1.trans hoq.1, hop.2.1⟩
              · cases h
            · next hf2 =>
              have hf2' : s2.fail = false := by
                cases hb : s2.fail
                · rfl
                · exact absurd hb hf2
              have hrec := (ih (f c t1) s2 hop.2.1 hf2').2 t h
              exact ⟨hrec.1.trans (hop.1.trans hoq.1), hrec.2⟩

theorem sepBy1Loop_frozen {T U : Type} (d : T) (f : T → T → T) {p : Parser T} {q : Parser U}
    (hp : Good p) (hq : Good q) (off0 : Nat) :
    ∀ (fuel : Nat) (c : T) (s : PStream), SOK s → s.src.length ≤ s.idx → s.pos.off = off0 →
      (∀ v t, sepBy1Loop d p q f off0 fuel c s = .ok v t → Frozen s t) ∧
      (∀ t, sepBy1Loop d p q f off0 fuel c s = .err t → Frozen s t) := by
  intro fuel
  induction fuel with
  | zero =>
    intro c s hs hend hoff
    constructor
    · intro v t h; simp [sepBy1Loop] at h
    · intro t h; simp [sepBy1Loop] at h
  | succ n ih =>
    intro c s hs hend hoff
    have h1 := (hq s hs).2 hend
    constructor
    · intro v t h
      unfold sepBy1Loop at h
      split at h
      · cases h
      · cases h
      · next u1 s1 heq =>
        rw [heq] at h1
        have hzq : Frozen s s1 := h1
        have hend1 : s1.src.length ≤ s1.idx := by rw [hzq.1, hzq.2.2.2]; exact hend
        split at h
        · cases h
          exact frozen_sclear s s1 hzq
        · have h2 := (hp s1 hzq.2.1).2 hend1
          split at h
          · cases h
          · cases h
          · next t1 s2 heq2 =>
            rw [heq2] at h2
            have hzp : Frozen s1 s2 := h2
            split at h
            · split at h
              · next hne =>
                have : s2.pos.off = off0 := by
                  rw [hzp.2.2.1, hzq.2.2.1, hoff]
                exact absurd this hne
              · cases h
                exact frozen_trans hzq hzp
            · have hend2 : s2.src.length ≤ s2.idx := by rw [hzp.1, hzp.2.2.2]; exact hend1
              have hoff2 : s2.pos.off = off0 := by rw [hzp.2.2.1, hzq.2.2.1, hoff]
              have hrec := (ih (f c t1) s2 hzp.2.1 hend2 hoff2).1 v t h
              exact frozen_trans hzq (frozen_trans hzp hrec)
    · intro t h
      unfold sepBy1Loop at h
      split at h
      · next s1 heq =>
        rw [heq] at h1
        cases h
        exact h1
      · cases h
      · next u1 s1 heq =>
        rw [heq] at h1
        have hzq : Frozen s s1 := h1
        have hend1 : s1.src.length ≤ s1.idx := by rw [hzq.1, hzq.2.2.2]; exact hend
        split at h
        · cases h
        · have h2 := (hp s1 hzq.2.1).2 hend1
          split at h
          · next s2 heq2 =>
            rw [heq2] at h2
            cases h
            exact frozen_trans hzq h2
          · cases h
          · next t1 s2 heq2 =>
            rw [heq2] at h2
            have hzp : Frozen s1 s2 := h2
            split at h
            · split at h
              · cases h
                exact frozen_trans hzq hzp
              · cases h
            · have hend2 : s2.src.length ≤ s2.idx := by rw [hzp.1, hzp.2.2.2]; exact hend1
              have hoff2 : s2.pos.off = off0 := by rw [hzp.2.2.1, hzq.2.2.1, hoff]
              have hrec := (ih (f c t1) s2 hzp.2.1 hend2 hoff2).2 t h
              exact frozen_trans hzq (frozen_trans hzp hrec)

theorem good_sep_by1 {T U : Type} (d : T) (fuel : Nat) (f : T → T → T)
    {p : Parser T} {q : Parser U} (hp : Good p) (hq : Good q) :
    Good (parser_sep_by1 d fuel p q f) := by
  intro s hs
  constructor
  · intro hfail
    have h1 := (hp s hs).1 hfail
    unfold parser_sep_by1
    split
    · next s1 heq => rw [heq] at h1; exact h1
    · trivial
    · next c s1 heq =>
      rw [heq] at h1
      have ho1 : OutOk s s1 := h1
      split
      · exact ho1
      · next hf1 =>
        have hf1' : s1.fail = false := by
          cases hb : s1.fail
          · rfl
          · exact absurd hb hf1
        cases h : sepBy1Loop d p q f s.pos.off fuel c s1 with
        | ok v t =>
          have hl := (sepBy1Loop_good d f hp hq s.pos.off fuel c s1 ho1.2.1 hf1').1 v t h
          have := loopOut_comp ho1 hl
          exact ⟨this.1, this.2.1, this.2.2.1, this.2.2.2.1, this.2.2.2.2⟩
        | err t =>
          have hl := (sepBy1Loop_good d f hp hq s.pos.off fuel c s1 ho1.2.1 hf1').2 t h
          exact ⟨hl.1.trans ho1.1, hl.2⟩
        | div => trivial
  · intro hend
    have h1 := (hp s hs).2 hend
    unfold parser_sep_by1
    split
    · next s1 heq => rw [heq] at h1; exact h1
    · trivial
    · next c s1 heq =>
      rw [heq] at h1
      have hz1 : Frozen s s1 := h1
      split
      · exact hz1
      · have hend1 : s1.src.length ≤ s1.idx := by rw [hz1.1, hz1.2.2.2]; exact hend
        have hoff1 : s1.pos.off = s.pos.off := by rw [hz1.2.2.1]
        cases h : sepBy1Loop d p q f s.pos.off fuel c s1 with
        | ok v t =>
          exact frozen_trans hz1
            ((sepBy1Loop_frozen d f hp hq s.pos.off fuel c s1 hz1.2.1 hend1 hoff1).1 v t h)
        | err t =>
          exact frozen_trans hz1
            ((sepBy1Loop_frozen d f hp hq s.pos.off fuel c s1 hz1.2.1 hend1 hoff1).2 t h)
        | div => trivial

theorem good_alt {T : Type} {p q : Parser T} (hp : Good p) (hq : Good q) :
    Good (parser_alt p q) := by
  intro s hs
  constructor
  · intro hfail
    have h1 := (hp s hs).1 hfail
    unfold parser_alt
    split
    · next s1 heq => rw [heq] at h1; exact h1
    · trivial
    · next t s1 heq =>
      rw [heq] at h1
      have ho1 : OutOk s s1 := h1
      split
      · next hf1 =>
        obtain ⟨hoc, hfc⟩ := outOk_sclear_of_flagged ho1 hf1
        have h2 := (hq (sclear s1) hoc.2.1).1 hfc
        cases h : q (sclear s1) with
        | ok v t2 =>
          rw [h] at h2
          refine outOk_trans hoc h2 ?_
          intro _
          exact (ho1.2.2.2.2 hf1)
        | err t2 =>
          rw [h] at h2
          exact ⟨h2.1.trans hoc.1, h2.2⟩
        | div => trivial
      · exact ho1
  · intro hend
    have h1 := (hp s hs).2 hend
    unfold parser_alt
    split
    · next s1 heq => rw [heq] at h1; exact h1
    · trivial
    · next t s1 heq =>
      rw [heq] at h1
      have hz1 : Frozen s s1 := h1
      split
      · have hzc : Frozen s (sclear s1) := frozen_sclear s s1 hz1
        have hend1 : (sclear s1).src.length ≤ (sclear s1).idx := by
          show s1.src.length ≤ s1.idx
          rw [hz1.1, hz1.2.2.2]; exact hend
        have h2 := (hq (sclear s1) hzc.2.1).2 hend1
        cases h : q (sclear s1) with
        | ok v t2 => rw [h] at h2; exact frozen_trans hzc h2
        | err t2 => rw [h] at h2; exact frozen_trans hzc h2
        | div => trivial
      · exact hz1

theorem good_alt_void {p q : Parser Unit} (hp : Good p) (hq : Good q) :
    Good (parser_alt_void p q) := by
  intro s hs
  constructor
  · intro hfail
    have h1 := (hp s hs).1 hfail
    unfold parser_alt_void
    split
    · next s1 heq => rw [heq] at h1; exact h1
    · trivial
    · next t s1 heq =>
      rw [heq] at h1
      have ho1 : OutOk s s1 := h1
      split
      · next hf1 =>
        obtain ⟨hoc, hfc⟩ := outOk_sclear_of_flagged ho1 hf1
        have h2 := (hq (sclear s1) hoc.2.1).1 hfc
        cases h : q (sclear s1) with
        | ok v t2 =>
          rw [h] at h2
          refine outOk_trans hoc h2 ?_
          intro _
          exact (ho1.2.2.2.2 hf1)
        | err t2 =>
          rw [h] at h2
          exact ⟨h2.1.trans hoc.1, h2.2⟩
        | div => trivial
      · exact ho1
  · intro hend
    have h1 := (hp s hs).2 hend
    unfold parser_alt_void
    split
    · next s1 heq => rw [heq] at h1; exact h1
    · trivial
    · next t s1 heq =>
      rw [heq] at h1
      have hz1 : Frozen s s1 := h1
      split
      · have hzc : Frozen s (sclear s1) := frozen_sclear s s1 hz1
        have hend1 : (sclear s1).src.length ≤ (sclear s1).idx := by
          show s1.src.length ≤ s1.idx
          rw [hz1.1, hz1.2.2.2]; exact hend
        have h2 := (hq (sclear s1) hzc.2.1).2 hend1
        cases h : q (sclear s1) with
        | ok v t2 => rw [h] at h2; exact frozen_trans hzc h2
        | err t2 => rw [h] at h2; exact frozen_trans hzc h2
        | div => trivial
      · exact hz1

theorem good_try {T : Type} (d : T) {p : Parser T} (hp : Good p) :
    Good (parser_try d p) := by
  intro s hs
  constructor
  · intro hfail
    unfold parser_try
    by_cases he : s.eofb = true
    · have hend : s.src.length ≤ s.idx := hs he
      rw [if_pos ⟨he, hfail⟩]
      have hS1 : SOK { s with fail := true } := fun hh => hs hh
      have h2 := (hp { s with fail := true } hS1).2 hend
      split
      · next t s2 heq =>
        rw [heq] at h2
        exact frozen_outOk (frozen_trans ⟨rfl, hS1, rfl, rfl⟩ h2)
      · trivial
      · next s2 heq =>
        rw [heq] at h2
        rw [if_pos (Or.inr he)]
        exact frozen_outOk (frozen_trans ⟨rfl, hS1, rfl, rfl⟩ h2)
    · have he' : s.eofb = false := by
        cases hb : s.eofb
        · rfl
        · exact absurd hb he
      rw [if_neg (by simp [he'])]
      have h1 := (hp s hs).1 hfail
      split
      · next t s2 heq => rw [heq] at h1; exact h1
      · trivial
      · next s2 heq =>
        rw [heq] at h1
        rw [if_neg (by simp [hfail, he'])]
        exact ⟨h1.1, by intro hh; simp at hh, le_refl _, fun _ => ⟨rfl, rfl⟩, fun _ => rfl⟩
  · intro hend
    unfold parser_try
    by_cases hc : s.eofb = true ∧ s.fail = false
    · rw [if_pos hc]
      have hS1 : SOK { s with fail := true } := fun hh => hs hh
      have h2 := (hp { s with fail := true } hS1).2 hend
      split
      · next t s2 heq =>
        rw [heq] at h2
        exact frozen_trans ⟨rfl, hS1, rfl, rfl⟩ h2
      · trivial
      · next s2 heq =>
        rw [heq] at h2
        rw [if_pos (Or.inr hc.1)]
        exact frozen_trans ⟨rfl, hS1, rfl, rfl⟩ h2
    · rw [if_neg hc]
      have h2 := (hp s hs).2 hend
      split
      · next t s2 heq => rw [heq] at h2; exact h2
      · trivial
      · next s2 heq =>
        rw [heq] at h2
        by_cases hr : s.fail = true ∨ s.eofb = true
        · rw [if_pos hr]; exact h2
        · rw [if_neg hr]
          exact ⟨h2.1, by intro hh; simp at hh, rfl, rfl⟩

theorem built_good : ∀ {T : Type} {p : Parser T}, Built true p → Good p := by
  intro T p hb
  induction hb with
  | matchLeaf m hm => exact good_match m (hm rfl)
  | strLeaf cs => exact good_str cs
  | eofLeaf => exact good_eof
  | skip _ ih => exact good_skip ih
  | map d f _ ih => exact good_map d f ih
  | cat _ _ ih1 ih2 => exact good_cat ih1 ih2
  | seq d _ _ ih1 ih2 => exact good_seq d ih1 ih2
  | seq_tv _ _ ih1 ih2 => exact good_seq_tv ih1 ih2
  | seq_vv _ _ ih1 ih2 => exact good_seq_vv ih1 ih2
  | many fuel _ ih => exact good_many fuel ih
  | many_void fuel _ ih => exact good_many_void fuel ih
  | many1 fuel f _ ih => exact good_many1 fuel f ih
  | many1_void fuel _ ih => exact good_many1_void fuel ih
  | sep_by fuel _ _ ih1 ih2 => exact good_sep_by fuel ih1 ih2
  | sep_by_void fuel _ _ ih1 ih2 => exact good_sep_by_void fuel ih1 ih2
  | sep_by1 d fuel f _ _ ih1 ih2 => exact good_sep_by1 d fuel f ih1 ih2
  | alt _ _ ih1 ih2 => exact good_alt ih1 ih2
  | alt_void _ _ ih1 ih2 => exact good_alt_void ih1 ih2
  | tryP d _ ih => exact good_try d ih

theorem manyAcc_ok_not_flagged {T : Type} (p : Parser T) :
    ∀ (fuel : Nat) (acc : List T) (s : PStream) (v : List T) (t : PStream),
      manyAcc p fuel acc s = .ok v t → t.fail = false := by
  intro fuel
  induction fuel with
  | zero => intro acc s v t h; simp [manyAcc] at h
  | succ n ih =>
    intro acc s v t h
    unfold manyAcc at h
    split at h
    · cases h
    · cases h
    · split at h
      · cases h; rfl
      · next t1 s1 heq => exact ih _ _ _ _ h

theorem manyVoidLoop_ok_not_flagged (p : Parser Unit) :
    ∀ (fuel : Nat) (s : PStream) (v : Unit) (t : PStream),
      manyVoidLoop p fuel s = .ok v t → t.fail = false := by
  intro fuel
  induction fuel with
  | zero => intro s v t h; simp [manyVoidLoop] at h
  | succ n ih =>
    intro s v t h
    unfold manyVoidLoop at h
    split at h
    · cases h
    · cases h
    · split at h
      · cases h; rfl
      · exact ih _ _ _ h

theorem many_absorb_first {T : Type} (p : Parser T) (s : PStream) (x : T) (t : PStream)
    (fuel : Nat) (h1 : p s = .ok x t) (h2 : t.fail = true) :
    parser_many (fuel + 1) p s = .ok [] (sclear t) := by
  unfold parser_many manyAcc
  rw [h1]
  simp [h2]

theorem many_void_absorb_first (p : Parser Unit) (s : PStream) (x : Unit) (t : PStream)
    (fuel : Nat) (h1 : p s = .ok x t) (h2 : t.fail = true) :
    parser_many_void (fuel + 1) p s = .ok () (sclear t) := by
  unfold parser_many_void manyVoidLoop
  rw [h1]
  simp [h2]

theorem manyAcc_acc {T : Type} (p : Parser T) :
    ∀ (fuel : Nat) (acc : List T) (s : PStream),
      manyAcc p fuel acc s =
        (match manyAcc p fuel [] s with
          | .ok ts t => .ok (acc ++ ts) t
          | .err t => .err t
          | .div => .div) := by
  intro fuel
  induction fuel with
  | zero => intro acc s; simp [manyAcc]
  | succ n ih =>
    intro acc s
    unfold manyAcc
    split
    · rfl
    · rfl
    · next t1 s1 heq =>
      split
      · simp
      · rw [ih (acc ++ [t1]) s1, ih ([] ++ [t1]) s1]
        cases manyAcc p n [] s1 <;> simp

theorem many1Acc_fold {T : Type} (p : Parser T) (f : T → T → T) :
    ∀ (fuel : Nat) (c : T) (s : PStream),
      many1Acc p f fuel c s = foldRes f c (manyAcc p fuel [] s) := by
  intro fuel
  induction fuel with
  | zero => intro c s; simp [many1Acc, manyAcc, foldRes]
  | succ n ih =>
    intro c s
    unfold many1Acc manyAcc
    split
    · rfl
    · rfl
    · next t1 s1 heq =>
      split
      · simp [foldRes]
      · rw [ih (f c t1) s1]
        simp only [List.nil_append]
        rw [manyAcc_acc p n [t1] s1]
        cases manyAcc p n [] s1 <;> simp [foldRes]

/-- C1, counterexample: the claim that a sequence in which any component
has succeeded is never reported as a weak failure is false.  On empty
input, seq(eof(), chr('a')) has eof() succeed (consuming nothing), then
chr('a') fail weakly; the RETURN check sees no consumption since the
sequence's entry, so the sequence returns normally with the failure
flag set and the offset unchanged: a weak failure after a component
succeeded. -/
theorem c1_seq_counterexample :
    ¬ (∀ (p : Parser Unit) (q : Parser Char) (d : Char) (s0 s1 s2 : PStream) (u : Unit)
        (r : Char), s0.fail = false → p s0 = .ok u s1 → s1.fail = false →
        parser_seq d p q s0 = .ok r s2 → s2.fail = true → s2.pos.off ≠ s0.pos.off) := by
  intro h
  exact (h parser_eof (parser_chr 'a') charDflt (mkStream [])
    { mkStream [] with eofb := true }
    { mkStream [] with eofb := true, fail := true } () charDflt
    rfl (by decide) (by decide) (by decide) (by decide)) (by decide)

/-- C1 (amended): for the sequence combinator (operator>), (a) if p
fails by throwing, the exception propagates and q is never attempted;
(b) if p returns failed, the sequence returns the default value with
the stream exactly as p left it and q is never attempted, preserving
p's failure tier; (c) if p succeeds and q returns failed with any
consumption since the sequence's own entry, a ParserError is thrown
(error failure); and (d) whenever every failed normal return of p
consumes nothing, a failed normal return of the whole sequence also
consumes nothing since entry — i.e. a sequence that has consumed input
is never reported as a weak failure.  (The original claim's stronger
reading — any component success prevents a weak failure — is refuted by
c1_seq_counterexample: components can succeed while consuming
nothing.) -/
theorem c1_seq_short_circuit_escalation {U T : Type} (d : T) (p : Parser U) (q : Parser T)
    (s0 : PStream) :
    (∀ s1, p s0 = .err s1 → ∀ q' : Parser T, parser_seq d p q' s0 = .err s1) ∧
    (∀ u s1, p s0 = .ok u s1 → s1.fail = true → ∀ q' : Parser T,
      parser_seq d p q' s0 = .ok d s1) ∧
    (∀ u s1 t s2, p s0 = .ok u s1 → s1.fail = false → q s1 = .ok t s2 → s2.fail = true →
      s2.pos.off ≠ s0.pos.off → parser_seq d p q s0 = .err s2) ∧
    ((∀ u s1, p s0 = .ok u s1 → s1.fail = true → s1.pos.off = s0.pos.off) →
      ∀ r s2, parser_seq d p q s0 = .ok r s2 → s2.fail = true →
        s2.pos.off = s0.pos.off) := by
  refine ⟨?_, ?_, ?_, ?_⟩
  · intro s1 hp q'
    unfold parser_seq
    rw [hp]
  · intro u s1 hp hflag q'
    unfold parser_seq
    rw [hp]
    simp [hflag]
  · intro u s1 t s2 hp hok hq hflag hne
    unfold parser_seq
    rw [hp]
    simp only [hok, Bool.false_eq_true, if_false]
    rw [hq]
    simp [hflag, hne]
  · intro hdisc r s2 h hflag
    unfold parser_seq at h
    split at h
    · cases h
    · cases h
    · rename_i u1 s1 heq
      split at h
      · rename_i hf1
        cases h
        exact hdisc _ _ heq hf1
      · split at h
        · cases h
        · cases h
        · split at h
          · cases h
          · rename_i hg
            cases h
            by_cases hoff : s2.pos.off = s0.pos.off
            · exact hoff
            · exact absurd ⟨hflag, hoff⟩ hg

/-- C1, witness: the spec scenario seq(skip(chr 'a'), chr 'x') on "ab"
consumes 'a', then chr('x') fails weakly; one character was consumed
since entry, so the sequence throws (error failure). -/
theorem c1_seq_witness :
    parser_seq charDflt (parser_skip (parser_chr 'a')) (parser_chr 'x') (mkStream ['a', 'b']) =
      .err { src := ['a', 'b'], idx := 1, c := 'a',
             pos := { off := 1, row := 1, col := 2 }, fail := true, eofb := false } := by
  exact (c1_seq_short_circuit_escalation charDflt (parser_skip (parser_chr 'a'))
    (parser_chr 'x') (mkStream ['a', 'b'])).2.2.1 ()
    { src := ['a', 'b'], idx := 1, c := 'a',
      pos := { off := 1, row := 1, col := 2 }, fail := false, eofb := false }
    charDflt
    { src := ['a', 'b'], idx := 1, c := 'a',
      pos := { off := 1, row := 1, col := 2 }, fail := true, eofb := false }
    (by decide) (by decide) (by decide) (by decide) (by decide)

/-- C2: backtracking law for try_(p) on a healthy stream over a
seekable source (failbit and eofbit down, so tellg is valid): if p
throws a ParserError (error failure), try_(p) returns the default value
with the stream seeked back to exactly the entry offset, row and column
and the failure flag set again (a weak failure); if p returns normally
(success or weak failure), the outcome passes through unchanged. -/
theorem c2_try_backtrack {T : Type} (d : T) (p : Parser T) (s0 : PStream)
    (hf : s0.fail = false) (he : s0.eofb = false) :
    (∀ s1, p s0 = .err s1 →
      parser_try d p s0 =
        .ok d { s1 with idx := s0.idx, pos := s0.pos, fail := true, eofb := false }) ∧
    (∀ t s1, p s0 = .ok t s1 → parser_try d p s0 = .ok t s1) := by
  constructor
  · intro s1 hp
    unfold parser_try
    rw [if_neg (by simp [he]), hp]
    simp [hf, he]
  · intro t s1 hp
    unfold parser_try
    rw [if_neg (by simp [he]), hp]

/-- C2, witness: try_(skip("ab")) on "aX": skip("ab") consumes 'a' and
then throws on 'X'; try_ restores offset 0, row 1, column 1, leaves the
failure flag set, and returns the default value. -/
theorem c2_try_witness :
    parser_try () (parser_str ['a', 'b']) (mkStream ['a', 'X']) =
      .ok () { src := ['a', 'X'], idx := 0, c := 'a',
               pos := { off := 0, row := 1, col := 1 }, fail := true, eofb := false } := by
  exact (c2_try_backtrack () (parser_str ['a', 'b']) (mkStream ['a', 'X']) rfl rfl).1
    { src := ['a', 'X'], idx := 1, c := 'a',
      pos := { off := 1, row := 1, col := 2 }, fail := true, eofb := false }
    (by decide)

/-- C3: ordered alternation p | q (and its void specialization): if p
succeeds, its result is returned; if p fails weakly leaving the stream
otherwise untouched, the failure flag is cleared and the combined
outcome is exactly the outcome of running q alone on the same starting
stream state; if p throws (error failure), the exception propagates
unchanged and q is never attempted, so q causes no consumption (the
outcome does not depend on q at all). -/
theorem c3_alt_ordered_choice {T : Type} (p q : Parser T) (s0 : PStream) :
    (∀ t s1, p s0 = .ok t s1 → s1.fail = false → parser_alt p q s0 = .ok t s1) ∧
    (s0.fail = false → s0.eofb = false →
      ∀ t s1, p s0 = .ok t s1 → s1.fail = true → s1.src = s0.src → s1.idx = s0.idx →
        s1.pos = s0.pos → s1.c = s0.c → parser_alt p q s0 = q s0) ∧
    (∀ s1, p s0 = .err s1 → ∀ q' : Parser T, parser_alt p q' s0 = .err s1) ∧
    (∀ (pv qv : Parser Unit),
      (∀ t s1, pv s0 = .ok t s1 → s1.fail = false → parser_alt_void pv qv s0 = .ok () s1) ∧
      (s0.fail = false → s0.eofb = false →
        ∀ t s1, pv s0 = .ok t s1 → s1.fail = true → s1.src = s0.src → s1.idx = s0.idx →
          s1.pos = s0.pos → s1.c = s0.c → parser_alt_void pv qv s0 = qv s0) ∧
      (∀ s1, pv s0 = .err s1 → ∀ qv' : Parser Unit, parser_alt_void pv qv' s0 = .err s1)) := by
  refine ⟨?_, ?_, ?_, ?_⟩
  · intro t s1 hp hok
    unfold parser_alt
    rw [hp]
    simp [hok]
  · intro hf he t s1 hp hflag hsrc hidx hpos hc
    unfold parser_alt
    rw [hp]
    simp only [hflag, if_true]
    have : sclear s1 = s0 := by
      cases s0
      cases s1
      simp_all [sclear]
    rw [this]
  · intro s1 hp q'
    unfold parser_alt
    rw [hp]
  · intro pv qv
    refine ⟨?_, ?_, ?_⟩
    · intro t s1 hp hok
      unfold parser_alt_void
      rw [hp]
      simp [hok]
    · intro hf he t s1 hp hflag hsrc hidx hpos hc
      unfold parser_alt_void
      rw [hp]
      simp only [hflag, if_true]
      have : sclear s1 = s0 := by
        cases s0
        cases s1
        simp_all [sclear]
      rw [this]
    · intro s1 hp qv'
      unfold parser_alt_void
      rw [hp]

/-- C3, witness: the spec scenario alternative(chr 'x', chr 'a') on
"abc": chr('x') fails weakly, the flag is cleared, and the outcome is
exactly chr('a') run on the original stream: success with 'a', one
character consumed. -/
theorem c3_alt_witness :
    parser_alt (parser_chr 'x') (parser_chr 'a') (mkStream ['a', 'b', 'c']) =
      .ok 'a' { src := ['a', 'b', 'c'], idx := 1, c := 'a',
                pos := { off := 1, row := 1, col := 2 }, fail := false, eofb := false } := by
  have h := (c3_alt_ordered_choice (parser_chr 'x') (parser_chr 'a')
    (mkStream ['a', 'b', 'c'])).2.1 rfl rfl charDflt
    { mkStream ['a', 'b', 'c'] with fail := true }
    (by decide) (by decide) (by decide) (by decide) (by decide) (by decide)
  rw [h]
  decide

/-- C4, counterexample: many(p) can fail.  With p = skip("ab") on input
"aX", p consumes 'a' and then throws (error failure after consumption);
many does not catch ParserError, so the exception escapes many. -/
theorem c4_many_counterexample :
    ¬ (∀ (p : Parser Unit) (fuel : Nat) (s t : PStream),
        parser_many_void fuel p s ≠ .err t) := by
  intro h
  exact h (parser_str ['a', 'b']) 5 (mkStream ['a', 'X'])
    { src := ['a', 'X'], idx := 1, c := 'a',
      pos := { off := 1, row := 1, col := 2 }, fail := true, eofb := false }
    (by decide)

/-- C4 (amended): many(p) (both the collection and the void
specialization) never reports failure by normal return: every normal
return of many has the failure flag cleared, and a failed normal return
of p ending the repetition is always absorbed — the flag is cleared and
the results collected so far are returned — regardless of how much p
consumed by the offset measure.  However, a failure p reports by
throwing ParserError (the error tier) propagates out of many
uncaught, so many(p) itself can fail with an error failure (see
c4_many_counterexample). -/
theorem c4_many_absorbs_flagged {T : Type} (p : Parser T) (pv : Parser Unit) :
    (∀ fuel s v t, parser_many fuel p s = .ok v t → t.fail = false) ∧
    (∀ s x t fuel, p s = .ok x t → t.fail = true →
      parser_many (fuel + 1) p s = .ok [] (sclear t)) ∧
    (∀ fuel s v t, parser_many_void fuel pv s = .ok v t → t.fail = false) ∧
    (∀ s x t fuel, pv s = .ok x t → t.fail = true →
      parser_many_void (fuel + 1) pv s = .ok () (sclear t)) := by
  refine ⟨?_, ?_, ?_, ?_⟩
  · intro fuel s v t h
    exact manyAcc_ok_not_flagged p fuel [] s v t h
  · intro s x t fuel h1 h2
    exact many_absorb_first p s x t fuel h1 h2
  · intro fuel s v t h
    exact manyVoidLoop_ok_not_flagged pv fuel s v t h
  · intro s x t fuel h1 h2
    exact many_void_absorb_first pv s x t fuel h1 h2

/-- C4, witness: many(chr 'q') on "z": chr('q') fails weakly and the
failure is absorbed, yielding the empty collection with the stream
left unfailed and unmoved. -/
theorem c4_many_witness :
    parser_many 3 (parser_chr 'q') (mkStream ['z']) = .ok [] (mkStream ['z']) := by
  exact (c4_many_absorbs_flagged (parser_chr 'q') sepNoop).2.1 (mkStream ['z']) charDflt
    { mkStream ['z'] with fail := true } 2 (by decide) (by decide)

/-- C5: many1(p, f) fails exactly when the first application of p
fails, with p's own failure tier: a thrown first failure propagates
(error tier), and a flagged first return is passed through with the
stream exactly as p left it (flag still set, no further consumption —
so a weak first failure of p stays a weak failure of many1).  After a
first success, the loop behaves exactly as the loop of many: the
outcome is the many-loop outcome with the collected results folded by
f from the first result (subsequent flagged failures absorbed, thrown
failures propagated).  The void specialization behaves the same, its
loop being literally the many-void loop. -/
theorem c5_many1_first_failure_tier {T : Type} (p : Parser T) (f : T → T → T)
    (pv : Parser Unit) (fuel : Nat) (s : PStream) :
    (∀ s1, p s = .err s1 → parser_many1 fuel p f s = .err s1) ∧
    (∀ c s1, p s = .ok c s1 → s1.fail = true → parser_many1 fuel p f s = .ok c s1) ∧
    (∀ c s1, p s = .ok c s1 → s1.fail = false →
      parser_many1 fuel p f s = foldRes f c (parser_many fuel p s1)) ∧
    (∀ s1, pv s = .err s1 → parser_many1_void fuel pv s = .err s1) ∧
    (∀ c s1, pv s = .ok c s1 → s1.fail = true → parser_many1_void fuel pv s = .ok () s1) ∧
    (∀ c s1, pv s = .ok c s1 → s1.fail = false →
      parser_many1_void fuel pv s = parser_many_void fuel pv s1) := by
  refine ⟨?_, ?_, ?_, ?_, ?_, ?_⟩
  · intro s1 hp
    unfold parser_many1
    rw [hp]
  · intro c s1 hp hflag
    unfold parser_many1
    rw [hp]
    simp [hflag]
  · intro c s1 hp hok
    unfold parser_many1
    rw [hp]
    simp only [hok, Bool.false_eq_true, if_false]
    exact many1Acc_fold p f fuel c s1
  · intro s1 hp
    unfold parser_many1_void
    rw [hp]
  · intro c s1 hp hflag
    unfold parser_many1_void
    rw [hp]
    simp [hflag]
  · intro c s1 hp hok
    unfold parser_many1_void parser_many_void
    rw [hp]
    simp [hok]

/-- C5, witness: many1(digit, f) on "x": the first application of digit
fails weakly, and many1 fails with that same weak failure — flag set,
nothing consumed, default value returned. -/
theorem c5_many1_witness :
    parser_many1 7 parser_digit (fun a _ => a) (mkStream ['x']) =
      .ok charDflt { mkStream ['x'] with fail := true } := by
  exact (c5_many1_first_failure_tier parser_digit (fun a _ => a) sepNoop 7
    (mkStream ['x'])).2.1 charDflt { mkStream ['x'] with fail := true }
    (by decide) (by decide)

theorem sepByLoop_succ {T U : Type} (p : Parser T) (q : Parser U) (off0 n : Nat)
    (acc : List T) (s : PStream) :
    sepByLoop p q off0 (n + 1) acc s =
      (match q s with
        | .err s1 => .err s1
        | .div => .div
        | .ok _ s1 =>
          if s1.fail = true then .ok acc (sclear s1)
          else
            match p s1 with
            | .err s2 => .err s2
            | .div => .div
            | .ok t s2 =>
              if s2.fail = true then
                if s2.pos.off ≠ off0 then .err s2 else .ok [] s2
              else sepByLoop p q off0 n (acc ++ [t]) s2) := rfl

/-- C6, counterexample: a missing element after a successful separator
is not always an unrecoverable (thrown) error.  RETURN_IF_FAIL only
throws when the offset moved since sep_by's own entry; if the first
element, the separator and the failing element all consumed nothing,
sep_by returns normally with the failure flag set (a weak failure) and
the default empty collection.  The element parser here is a custom
parser (any parser<T> instance is admissible) that succeeds without
consuming once and then fails weakly. -/
theorem c6_sep_by_counterexample :
    ¬ (∀ (T U : Type) (p : Parser T) (q : Parser U) (fuel : Nat) (s0 : PStream)
        (t : T) (s1 : PStream) (u : U) (s2 : PStream) (t2 : T) (s3 : PStream),
        s0.fail = false → p s0 = .ok t s1 → s1.fail = false → q s1 = .ok u s2 →
        s2.fail = false → p s2 = .ok t2 s3 → s3.fail = true →
        ∃ s4, parser_sep_by (fuel + 1) p q s0 = .err s4) := by
  intro h
  obtain ⟨s4, hs4⟩ := h (List Char) Unit eofbProbe sepNoop 1 (mkStream [])
    ['x'] { mkStream [] with eofb := true } () { mkStream [] with eofb := true }
    [] { mkStream [] with eofb := true, fail := true }
    rfl (by decide) (by decide) (by decide) (by decide) (by decide) (by decide)
  rw [show parser_sep_by 2 eofbProbe sepNoop (mkStream []) =
    .ok [] { mkStream [] with eofb := true, fail := true } from by decide] at hs4
  simp at hs4

/-- C6 (amended): sep_by(p, sep) applied where the first application of
p returns failed succeeds immediately with the empty collection, the
failure cleared, and the stream exactly as p left it but with the state
bits reset (zero consumption whenever p's weak failure consumed
nothing); and whenever a separator parses successfully but the
following application of p returns failed, the combinator throws a
ParserError (unrecoverable error failure) if any consumption has
occurred since sep_by's own entry — otherwise (all of p, sep, p
consumed nothing, reachable only with exotic element parsers) it
returns the default empty collection with the failure flag left set. -/
theorem c6_sep_by_empty_and_escalation {T U : Type} (p : Parser T) (q : Parser U)
    (fuel : Nat) (s0 : PStream) :
    (∀ t s1, p s0 = .ok t s1 → s1.fail = true →
      parser_sep_by fuel p q s0 = .ok [] (sclear s1)) ∧
    (∀ t s1 u s2 t2 s3, p s0 = .ok t s1 → s1.fail = false → q s1 = .ok u s2 →
      s2.fail = false → p s2 = .ok t2 s3 → s3.fail = true →
      parser_sep_by (fuel + 1) p q s0 =
        (if s3.pos.off ≠ s0.pos.off then .err s3 else .ok [] s3)) := by
  constructor
  · intro t s1 hp hflag
    unfold parser_sep_by
    rw [hp]
    simp [hflag]
  · intro t s1 u s2 t2 s3 hp hok hq hok2 hp2 hflag
    unfold parser_sep_by
    rw [hp]
    simp only [hok, Bool.false_eq_true, if_false]
    rw [sepByLoop_succ, hq]
    simp only [hok2, Bool.false_eq_true, if_false]
    rw [hp2]
    simp only [hflag, if_true]

/-- C6, witness: sep_by(digit, skip(chr ',')) on "1,x": '1' parses, the
separator ',' parses, then digit fails on 'x'; two characters were
consumed since entry, so the combinator throws (error failure) instead
of silently truncating the collection to ['1']. -/
theorem c6_sep_by_witness :
    parser_sep_by 2 parser_digit (parser_skip (parser_chr ',')) (mkStream ['1', ',', 'x']) =
      .err { src := ['1', ',', 'x'], idx := 2, c := ',',
             pos := { off := 2, row := 1, col := 3 }, fail := true, eofb := false } := by
  have h := (c6_sep_by_empty_and_escalation parser_digit (parser_skip (parser_chr ','))
    1 (mkStream ['1', ',', 'x'])).2 '1'
    { src := ['1', ',', 'x'], idx := 1, c := '1',
      pos := { off := 1, row := 1, col := 2 }, fail := false, eofb := false } ()
    { src := ['1', ',', 'x'], idx := 2, c := ',',
      pos := { off := 2, row := 1, col := 3 }, fail := false, eofb := false } charDflt
    { src := ['1', ',', 'x'], idx := 2, c := ',',
      pos := { off := 2, row := 1, col := 3 }, fail := true, eofb := false }
    (by decide) (by decide) (by decide) (by decide) (by decide) (by decide)
  rw [h]
  decide

/-- C7: if the application of p to a stream returns a weak failure
without consuming anything (flag set, position and read pointer
unchanged), then many(p) succeeds with the empty collection and zero
consumption: the result stream is p's failure stream with the state
bits cleared, at the entry position. -/
theorem c7_many_zero_match_success {T : Type} (p : Parser T) (fuel : Nat) (s : PStream)
    (x : T) (t : PStream) (h1 : p s = .ok x t) (h2 : t.fail = true)
    (h3 : t.pos = s.pos) (h4 : t.idx = s.idx) :
    parser_many (fuel + 1) p s = .ok [] (sclear t) ∧
    (sclear t).fail = false ∧ (sclear t).pos = s.pos ∧ (sclear t).idx = s.idx := by
  exact ⟨many_absorb_first p s x t fuel h1 h2, rfl, h3, h4⟩

/-- C7, witness: the spec scenario many(digit) on empty input: digit
fails immediately with no consumption, and many(digit) succeeds with
the empty collection, zero consumption, stream unfailed. -/
theorem c7_many_witness :
    parser_many 4 parser_digit (mkStream []) = .ok [] (mkStream []) ∧
    (mkStream []).fail = false := by
  have h := c7_many_zero_match_success parser_digit 3 (mkStream []) charDflt
    { mkStream [] with eofb := true, fail := true }
    (by decide) (by decide) (by decide) (by decide)
  exact ⟨h.1, h.2.1⟩

/-- C8, counterexample: the spec formula "tab at column c yields column
8*floor(c/8)+9" fails at columns that are multiples of 8: at column 8
the code yields column 9 (the next tab stop), while the formula yields
17. -/
theorem c8_pos_tab_counterexample :
    ¬ (∀ p : Pos, 1 ≤ p.col → (Pos.update p '\t').col = 8 * (p.col / 8) + 9) := by
  intro h
  exact absurd (h ⟨5, 2, 8⟩ (by decide)) (by decide)

/-- C8 (amended): position update law.  For every consumed character
the offset increments by exactly one; a newline sets column to 1 and
increments the row; a tab at column c (c >= 1) yields column
8*floor((c-1)/8)+9 — the column rounded up to the next multiple of 8,
plus 1, so tab at column 1 yields 9, at column 5 yields 9, and at
column 8 yields 9 (not 17 as the original 8*floor(c/8)+9 formula
said); any other character increments the column by one. -/
theorem c8_pos_update_law (p : Pos) (ch : Char) (hc : 1 ≤ p.col) :
    (Pos.update p ch).off = p.off + 1 ∧
    (ch = '\n' → (Pos.update p ch).row = p.row + 1 ∧ (Pos.update p ch).col = 1) ∧
    (ch = '\t' → (Pos.update p ch).row = p.row ∧
      (Pos.update p ch).col = 8 * ((p.col - 1) / 8) + 9) ∧
    (ch ≠ '\t' → ch ≠ '\n' →
      (Pos.update p ch).row = p.row ∧ (Pos.update p ch).col = p.col + 1) := by
  refine ⟨pos_update_off p ch, ?_, ?_, ?_⟩
  · intro hn
    subst hn
    unfold Pos.update
    rw [if_neg (by decide), if_pos rfl]
    exact ⟨rfl, rfl⟩
  · intro ht
    subst ht
    unfold Pos.update
    rw [if_pos rfl]
    refine ⟨rfl, ?_⟩
    show p.col + (8 - (p.col - 1) % 8) = 8 * ((p.col - 1) / 8) + 9
    omega
  · intro h1 h2
    unfold Pos.update
    rw [if_neg h1, if_neg h2]
    exact ⟨rfl, rfl⟩

/-- C8, witness: tab at column 1 yields column 9; tab at column 5
yields column 9; newline resets column to 1 and increments the row;
an ordinary character advances offset and column by one. -/
theorem c8_pos_witness :
    (Pos.update ⟨0, 1, 1⟩ '\t').col = 9 ∧ (Pos.update ⟨0, 1, 5⟩ '\t').col = 9 ∧
    (Pos.update ⟨7, 3, 4⟩ '\n').row = 4 ∧ (Pos.update ⟨7, 3, 4⟩ '\n').col = 1 ∧
    (Pos.update ⟨2, 1, 3⟩ 'a').off = 3 := by
  refine ⟨?_, ?_, ?_, ?_, ?_⟩
  · have h := ((c8_pos_update_law ⟨0, 1, 1⟩ '\t' (by decide)).2.2.1 rfl).2
    simpa using h
  · have h := ((c8_pos_update_law ⟨0, 1, 5⟩ '\t' (by decide)).2.2.1 rfl).2
    simpa using h
  · have h := ((c8_pos_update_law ⟨7, 3, 4⟩ '\n' (by decide)).2.1 rfl).1
    simpa using h
  · exact ((c8_pos_update_law ⟨7, 3, 4⟩ '\n' (by decide)).2.1 rfl).2
  · have h := (c8_pos_update_law ⟨2, 1, 3⟩ 'a' (by decide)).1
    simpa using h

/-- C9, counterexample: the claimed invariant fails as stated for the
library as it stands.  any_chr() is a library leaf whose predicate
accepts every char, including the value (char)EOF that peek produces at
end of input; applied to an empty stream, peek sets eofbit, the
predicate matches, ignore() extracts nothing (its sentry trips on
eofbit, setting failbit), and update_pos still advances the recorded
position using the stale last-read character.  The parser thus returns
normally with the failure flag set and the offset advanced by one
although the entry offset was 0 — a flagged normal return that is not
at the entry position. -/
theorem c9_invariant_counterexample :
    ¬ (∀ (T : Type) (p : Parser T), Built false p → ∀ (s : PStream), SOK s →
        s.fail = false → ∀ (t : T) (s' : PStream), p s = .ok t s' → s'.fail = true →
        s'.pos = s.pos) := by
  intro h
  have hb : Built false parser_any_char :=
    Built.matchLeaf false (fun _ => true) (fun hh => absurd hh (by decide))
  have hc := h Char parser_any_char hb (mkStream []) (fun hh => absurd hh (by decide))
    rfl eofChar { mkStream [] with eofb := true, fail := true, pos := ⟨1, 1, 2⟩ }
    (by decide) (by decide)
  exact absurd hc (by decide)

/-- C9 (amended): for every parser built from the library's leaves and
combinators, provided every character-matching leaf's predicate rejects
the end-of-input character value (which excludes any_chr and
complement-style predicates at end of input; chr, one_of, blank,
letter, alphanum and digit all qualify), applied to a non-failed
well-formed stream: whenever the application returns normally with the
stream's failure flag set, the stream's offset, row, column and read
position equal their values at the parser's entry — a failure reported
by normal return is always a weak failure, and any failure after
consumption surfaces only as a thrown ParserError or is cleared
internally before returning. -/
theorem c9_weak_failure_invariant {T : Type} (p : Parser T) (hb : Built true p)
    (s : PStream) (hs : SOK s) (hf : s.fail = false) (t : T) (s' : PStream)
    (h : p s = .ok t s') (hflag : s'.fail = true) :
    s'.pos = s.pos ∧ s'.idx = s.idx := by
  have hg := (built_good hb s hs).1 hf
  rw [h] at hg
  have ho : OutOk s s' := hg
  exact ho.2.2.2.1 (ho.2.2.2.2 hflag)

/-- C9, witness: try_(chr 'a' > chr 'z') on "ab" consumes 'a', throws
on 'b', and try_ converts the error into a flagged normal return; the
invariant instance confirms the returned stream is back at the entry
offset, row, column and read position. -/
theorem c9_invariant_witness :
    ({ mkStream ['a', 'b'] with c := 'a', fail := true } : PStream).pos =
      (mkStream ['a', 'b']).pos ∧
    ({ mkStream ['a', 'b'] with c := 'a', fail := true } : PStream).idx =
      (mkStream ['a', 'b']).idx := by
  exact c9_weak_failure_invariant
    (parser_try charDflt (parser_seq charDflt (parser_chr 'a') (parser_chr 'z')))
    (Built.tryP true charDflt (Built.seq true charDflt
      (Built.matchLeaf true (fun d => d == 'a') (fun _ => by decide))
      (Built.matchLeaf true (fun d => d == 'z') (fun _ => by decide))))
    (mkStream ['a', 'b']) (fun hh => absurd hh (by decide)) rfl charDflt
    { mkStream ['a', 'b'] with c := 'a', fail := true } (by decide) rfl

/-- C10: if the stream's failure flag is already set when a leaf parser
is applied, the parser throws ParserError immediately with the stream
state exactly as it was — nothing consumed, position unchanged — even
if the next character would have matched.  This covers every
character-matching leaf (chr, any_chr, one_of, none_of, blank, letter,
alphanum, digit are parser_match instances, quantified here by their
predicate), the literal-string leaf skip("...") (parser_str), and
eof(). -/
theorem c10_failed_stream_leaf_throws (s : PStream) (hf : s.fail = true) :
    (∀ m : Char → Bool, parser_match m s = .err s) ∧
    (∀ cs : List Char, parser_str cs s = .err s) ∧
    parser_eof s = .err s := by
  refine ⟨?_, ?_, ?_⟩
  · intro m
    unfold parser_match
    rw [if_pos hf]
  · intro cs
    unfold parser_str
    rw [if_pos hf]
  · unfold parser_eof
    rw [if_pos hf]

/-- C10, witness: chr('a') applied to a failed stream whose next
character is 'a' (it would have matched) throws with the stream
untouched. -/
theorem c10_failed_stream_witness :
    parser_chr 'a' { mkStream ['a'] with fail := true } =
      .err { mkStream ['a'] with fail := true } := by
  exact (c10_failed_stream_leaf_throws { mkStream ['a'] with fail := true } rfl).1
    (fun d => d == 'a')
